import Mathlib

/-!
Verification development for the Leo AST layer (`src/ast/src/lib.rs`).

The repository's visible source is the `Ast` facade: a wrapper around a
`Program` tree offering canonicalization (via a reconstructing director
driving a canonicalizer reducer) and JSON persistence.  The `Program`
node model, the reduction framework, the canonicalizer rules and the
serialization library live outside the visible source, so they are
modelled here from the specification (marked `Modelled from the spec:`);
the facade itself is embedded directly from `lib.rs`.
-/

namespace Leo

/-- Source-location range attached to every node (spec §3, Node Identity & Span). -/
structure Span where
  start : Nat
  stop : Nat
deriving DecidableEq, Repr

/-- Modelled from the spec: binary operators appearing in expressions and as
compound-assignment operators (`target op= value`, spec §4.3). -/
inductive BinaryOp where
  | add
  | sub
  | mul
  | div
  | pow
deriving DecidableEq, Repr

/-- Modelled from the spec (§3, Expression): the closed expression variant set,
restricted to the fragment the canonicalization rules and the claims exercise:
literals, identifier references, binary operations, calls, tuple literals and
positional tuple-component access.  A call records the width of its declared
tuple result type when known (the spec's §8 example treats a call such as
`pair()` as a tuple producer of width 2). -/
inductive Expression where
  | identifier (name : String) (span : Span)
  | lit (value : String) (span : Span)
  | binary (op : BinaryOp) (left : Expression) (right : Expression) (span : Span)
  | call (callee : String) (arguments : List Expression) (resultWidth : Option Nat) (span : Span)
  | tupleInit (elements : List Expression) (span : Span)
  | tupleAccess (tuple : Expression) (index : Nat) (span : Span)

/-- Modelled from the spec (§3, Statement): the closed statement variant set,
restricted to the fragment the canonicalization rules and the claims exercise:
return, variable definition (one or more bindings, initializer), assignment
(optional compound operator), conditional, iteration and block. -/
inductive Statement where
  | ret (value : Expression) (span : Span)
  | definition (names : List String) (value : Expression) (span : Span)
  | assign (operation : Option BinaryOp) (target : Expression) (value : Expression) (span : Span)
  | conditional (condition : Expression) (thenBranch : List Statement)
      (elseBranch : List Statement) (span : Span)
  | iteration (var : String) (lower : Expression) (upper : Expression)
      (body : List Statement) (span : Span)
  | block (statements : List Statement) (span : Span)

/-- The source-location span carried by a statement node. -/
def Statement.span : Statement → Span
  | .ret _ sp => sp
  | .definition _ _ sp => sp
  | .assign _ _ _ sp => sp
  | .conditional _ _ _ sp => sp
  | .iteration _ _ _ _ sp => sp
  | .block _ sp => sp

/-- Modelled from the spec (§3, Function): a function has a name, ordered
input parameters, and a body of statements. -/
structure Function where
  identifier : String
  input : List String
  block : List Statement
  span : Span

/-- Modelled from the spec (§3, Program): root entity, ordered imports and
a mapping of declared function names to their definitions. -/
structure Program where
  imports : List String
  functions : List (String × Function)

/-- Errors of the `leo_errors` crate used by the facade and the
canonicalizer: canonicalization errors carry the offending node's span
(spec §7(a)); serialization and I/O errors mirror the `AstError`
constructors invoked in `lib.rs`. -/
inductive AstError where
  | invalidAssignmentTarget (span : Span)
  | tupleArityMismatch (names : Nat) (width : Nat) (span : Span)
  | failedToConvertAstToJsonString
  | failedToCreateAstJsonFile (path : String)
  | failedToWriteAstToJsonFile (path : String)
  | failedToReadJsonStringToAst
  | failedToReadJsonFile (path : String)
deriving DecidableEq, Repr

/-- Modelled from the spec (§4.2): a Reducer declares one transformation
operation per node category, each with a default pass-through implementation.
The statement operation returns a list so a rule may expand one statement
into several sequential statements (the multi-binding rule of §4.3). -/
structure Reducer where
  reduceExpression : Expression → Except AstError Expression := fun e => .ok e
  reduceStatement : Statement → Except AstError (List Statement) := fun s => .ok [s]
  reduceFunction : Function → Except AstError Function := fun f => .ok f
  reduceProgram : Program → Except AstError Program := fun p => .ok p

namespace ReconstructingDirector

mutual

/-- Modelled from the spec (§4.2): the Director's strict post-order traversal
over expressions — children are reduced first, then the reducer's expression
operation is invoked on the node rebuilt from the reduced children. -/
def reduceExpression (r : Reducer) : Expression → Except AstError Expression
  | .identifier n sp => r.reduceExpression (.identifier n sp)
  | .lit v sp => r.reduceExpression (.lit v sp)
  | .binary op l rhs sp => do
      let l' ← reduceExpression r l
      let rhs' ← reduceExpression r rhs
      r.reduceExpression (.binary op l' rhs' sp)
  | .call f args w sp => do
      let args' ← reduceExpressions r args
      r.reduceExpression (.call f args' w sp)
  | .tupleInit es sp => do
      let es' ← reduceExpressions r es
      r.reduceExpression (.tupleInit es' sp)
  | .tupleAccess t i sp => do
      let t' ← reduceExpression r t
      r.reduceExpression (.tupleAccess t' i sp)

/-- Post-order reduction of a list of sibling expressions, in order. -/
def reduceExpressions (r : Reducer) : List Expression → Except AstError (List Expression)
  | [] => .ok []
  | e :: es => do
      let e' ← reduceExpression r e
      let es' ← reduceExpressions r es
      .ok (e' :: es')

end

mutual

/-- Modelled from the spec (§4.2): the Director's strict post-order traversal
over statements; the reducer's statement operation may splice a statement into
several sequential replacement statements. -/
def reduceStatement (r : Reducer) : Statement → Except AstError (List Statement)
  | .ret v sp => do
      let v' ← reduceExpression r v
      r.reduceStatement (.ret v' sp)
  | .definition ns v sp => do
      let v' ← reduceExpression r v
      r.reduceStatement (.definition ns v' sp)
  | .assign op t v sp => do
      let t' ← reduceExpression r t
      let v' ← reduceExpression r v
      r.reduceStatement (.assign op t' v' sp)
  | .conditional c tb eb sp => do
      let c' ← reduceExpression r c
      let tb' ← reduceStatements r tb
      let eb' ← reduceStatements r eb
      r.reduceStatement (.conditional c' tb' eb' sp)
  | .iteration x lo hi body sp => do
      let lo' ← reduceExpression r lo
      let hi' ← reduceExpression r hi
      let body' ← reduceStatements r body
      r.reduceStatement (.iteration x lo' hi' body' sp)
  | .block ss sp => do
      let ss' ← reduceStatements r ss
      r.reduceStatement (.block ss' sp)

/-- Post-order reduction of a statement sequence; replacement lists of
consecutive statements are concatenated in order. -/
def reduceStatements (r : Reducer) : List Statement → Except AstError (List Statement)
  | [] => .ok []
  | s :: ss => do
      let s' ← reduceStatement r s
      let ss' ← reduceStatements r ss
      .ok (s' ++ ss')

end

/-- Reduce one function: its body statements in sequence, then the reducer's
function operation on the rebuilt function. -/
def reduceFunction (r : Reducer) (f : Function) : Except AstError Function := do
  let body ← reduceStatements r f.block
  r.reduceFunction { f with block := body }

/-- Reduce the name-to-function mapping in declaration order. -/
def reduceFunctions (r : Reducer) : List (String × Function) → Except AstError (List (String × Function))
  | [] => .ok []
  | (n, f) :: fs => do
      let f' ← reduceFunction r f
      let fs' ← reduceFunctions r fs
      .ok ((n, f') :: fs')

/-- Modelled from the spec (§4.2): the Director's whole-program traversal;
imports are leaf nodes, functions are reduced in order, then the reducer's
program operation runs on the rebuilt root. -/
def reduce_program (r : Reducer) (p : Program) : Except AstError Program := do
  let fns ← reduceFunctions r p.functions
  r.reduceProgram { imports := p.imports, functions := fns }

end ReconstructingDirector

/-- Modelled from the spec (§4.3): whether an expression is a valid assignment
target (an identifier path or a positional component access); a literal or a
call result is not. -/
def Expression.isValidTarget : Expression → Bool
  | .identifier _ _ => true
  | .tupleAccess _ _ _ => true
  | _ => false

/-- Modelled from the spec (§4.3): the tuple width of a tuple-producing
initializer — the element count of a tuple literal, or the declared tuple
result width of a call when known. -/
def Expression.tupleWidth : Expression → Option Nat
  | .tupleInit es _ => some es.length
  | .call _ _ w _ => w
  | _ => none

/-- Modelled from the spec (§4.3): the canonicalizer's statement rules.
Compound assignment `target op= value` becomes plain assignment
`target = target op value`, failing when the target is not a valid assignment
target; a multi-binding definition whose initializer produces a tuple of
matching width is split into one single-binding definition per declared name,
each bound to the corresponding tuple component by position, and an arity
mismatch is a canonicalization error carrying the definition's span.  All
other statements pass through unchanged. -/
def canonicalizeStatement : Statement → Except AstError (List Statement)
  | .assign (some op) target value sp =>
      if target.isValidTarget then
        .ok [.assign none target (.binary op target value sp) sp]
      else
        .error (.invalidAssignmentTarget sp)
  | .definition names value sp =>
      if names.length ≤ 1 then
        .ok [.definition names value sp]
      else
        match Expression.tupleWidth value with
        | some w =>
            if w = names.length then
              .ok (names.enum.map fun p => .definition [p.2] (.tupleAccess value p.1 sp) sp)
            else
              .error (.tupleArityMismatch names.length w sp)
        | none => .ok [.definition names value sp]
  | s => .ok [s]

/-- Modelled from the spec (§4.3): the Canonicalizer reducer — the statement
rules above, with pass-through defaults for every other node category. -/
def Canonicalizer : Reducer := { reduceStatement := canonicalizeStatement }

/-- The abstract syntax tree for a Leo program: a wrapper around the
`Program` root (`src/ast/src/lib.rs`, struct `Ast`). -/
structure Ast where
  ast : Program

/-- Creates a new AST from a given program tree (`Ast::new`). -/
def Ast.new (program : Program) : Ast := ⟨program⟩

/-- Returns the inner program AST representation (`Ast::as_repr`). -/
def Ast.as_repr (a : Ast) : Program := a.ast

/-- Consumes the wrapper and extracts the program (`Ast::into_repr`). -/
def Ast.into_repr (a : Ast) : Program := a.ast

/-- The `AsRef<Program>` implementation for `Ast`. -/
def Ast.as_ref (a : Ast) : Program := a.ast

/-- `Ast::canonicalize`: `self.ast = ReconstructingDirector::new(Canonicalizer::default()).reduce_program(self.as_repr())?`.
The `&mut self` receiver is modelled by returning the `Result` paired with the
post-call state: on success the owned tree is replaced by the reduction
result, on failure the `?` operator returns before the assignment and the
held tree is unchanged. -/
def Ast.canonicalize (a : Ast) : Except AstError Unit × Ast :=
  match ReconstructingDirector.reduce_program Canonicalizer a.as_repr with
  | .ok p => (.ok (), ⟨p⟩)
  | .error e => (.error e, a)

section
variable (P : Expression → Prop) (Q : List Expression → Prop)
variable (hident : ∀ n sp, P (.identifier n sp))
variable (hlit : ∀ v sp, P (.lit v sp))
variable (hbinary : ∀ op l rhs sp, P l → P rhs → P (.binary op l rhs sp))
variable (hcall : ∀ f args w sp, Q args → P (.call f args w sp))
variable (htuple : ∀ es sp, Q es → P (.tupleInit es sp))
variable (haccess : ∀ t i sp, P t → P (.tupleAccess t i sp))
variable (hnil : Q [])
variable (hcons : ∀ e es, P e → Q es → Q (e :: es))

mutual

/-- Simultaneous induction for the nested expression type: a property of
expressions together with a property of expression lists. -/
def Expression.inductionOn : ∀ e : Expression, P e
  | .identifier n sp => hident n sp
  | .lit v sp => hlit v sp
  | .binary op l rhs sp =>
      hbinary op l rhs sp (Expression.inductionOn l) (Expression.inductionOn rhs)
  | .call f args w sp => hcall f args w sp (Expression.inductionOnList args)
  | .tupleInit es sp => htuple es sp (Expression.inductionOnList es)
  | .tupleAccess t i sp => haccess t i sp (Expression.inductionOn t)

/-- Companion of `Expression.inductionOn` for expression lists. -/
def Expression.inductionOnList : ∀ es : List Expression, Q es
  | [] => hnil
  | e :: es => hcons e es (Expression.inductionOn e) (Expression.inductionOnList es)

end

end

section
variable (P : Statement → Prop) (Q : List Statement → Prop)
variable (hret : ∀ v sp, P (.ret v sp))
variable (hdef : ∀ ns v sp, P (.definition ns v sp))
variable (hassign : ∀ op t v sp, P (.assign op t v sp))
variable (hcond : ∀ c tb eb sp, Q tb → Q eb → P (.conditional c tb eb sp))
variable (hiter : ∀ x lo hi body sp, Q body → P (.iteration x lo hi body sp))
variable (hblock : ∀ ss sp, Q ss → P (.block ss sp))
variable (hnil : Q [])
variable (hcons : ∀ s ss, P s → Q ss → Q (s :: ss))

mutual

/-- Simultaneous induction for the nested statement type: a property of
statements together with a property of statement lists. -/
def Statement.inductionOn : ∀ s : Statement, P s
  | .ret v sp => hret v sp
  | .definition ns v sp => hdef ns v sp
  | .assign op t v sp => hassign op t v sp
  | .conditional c tb eb sp =>
      hcond c tb eb sp (Statement.inductionOnList tb) (Statement.inductionOnList eb)
  | .iteration x lo hi body sp => hiter x lo hi body sp (Statement.inductionOnList body)
  | .block ss sp => hblock ss sp (Statement.inductionOnList ss)

/-- Companion of `Statement.inductionOn` for statement lists. -/
def Statement.inductionOnList : ∀ ss : List Statement, Q ss
  | [] => hnil
  | s :: ss => hcons s ss (Statement.inductionOn s) (Statement.inductionOnList ss)

end

end

mutual

/-- Whether no canonicalization rule matches anywhere in a statement: no
compound-assignment operator and no multi-binding definition with a
tuple-producing initializer of known width. -/
def Statement.sugarFree : Statement → Bool
  | .ret _ _ => true
  | .definition ns v _ => decide (ns.length ≤ 1) || (Expression.tupleWidth v).isNone
  | .assign op _ _ _ => op.isNone
  | .conditional _ tb eb _ => Statement.sugarFreeList tb && Statement.sugarFreeList eb
  | .iteration _ _ _ body _ => Statement.sugarFreeList body
  | .block ss _ => Statement.sugarFreeList ss

/-- Whether every statement of a sequence is free of canonicalization sugar. -/
def Statement.sugarFreeList : List Statement → Bool
  | [] => true
  | s :: ss => s.sugarFree && Statement.sugarFreeList ss

end

/-- Whether no canonicalization rule matches anywhere in a program. -/
def Program.sugarFree (p : Program) : Bool :=
  p.functions.all fun nf => Statement.sugarFreeList nf.2.block

/-- Modelled from the spec (§6, persisted representation): the persisted
document losslessly encodes the whole Program tree, spans included.  The
concrete pretty-printed JSON layout produced by the external serde library is
out of scope; the model keeps its contract — an injective textual encoding
with a total parser inverting it.  Numbers are written in unary (`I…I;`). -/
def encNat (n : Nat) : List Char :=
  List.replicate n 'I' ++ [';']

/-- Parse a unary number, leaving the remainder of the input. -/
def parseNat : List Char → Option (Nat × List Char)
  | [] => none
  | c :: cs =>
      if c = ';' then some (0, cs)
      else if c = 'I' then
        match parseNat cs with
        | some (n, rest) => some (n + 1, rest)
        | none => none
      else none

/-- Length-prefixed string encoding. -/
def encString (s : String) : List Char :=
  encNat s.length ++ s.data

/-- Parse a length-prefixed string. -/
def parseString (cs : List Char) : Option (String × List Char) :=
  match parseNat cs with
  | some (n, rest) =>
      if n ≤ rest.length then some (String.mk (rest.take n), rest.drop n) else none
  | none => none

/-- Concatenated encoding of a string list (the count is written separately). -/
def encStrings : List String → List Char
  | [] => []
  | s :: ss => encString s ++ encStrings ss

/-- Parse `n` consecutive length-prefixed strings. -/
def parseStrings : Nat → List Char → Option (List String × List Char)
  | 0, cs => some ([], cs)
  | n + 1, cs =>
      match parseString cs with
      | some (s, rest) =>
          match parseStrings n rest with
          | some (ss, rest') => some (s :: ss, rest')
          | none => none
      | none => none

/-- Encoding of an optional number: `N` for absent, `S` plus the number. -/
def encOptionNat : Option Nat → List Char
  | none => ['N']
  | some n => 'S' :: encNat n

/-- Parse an optional number. -/
def parseOptionNat : List Char → Option (Option Nat × List Char)
  | [] => none
  | c :: cs =>
      if c = 'N' then some (none, cs)
      else if c = 'S' then
        match parseNat cs with
        | some (n, rest) => some (some n, rest)
        | none => none
      else none

/-- One-character encoding of a binary operator. -/
def encOp : BinaryOp → Char
  | .add => '+'
  | .sub => '-'
  | .mul => '*'
  | .div => '/'
  | .pow => '^'

/-- Parse a binary operator character. -/
def parseOp : List Char → Option (BinaryOp × List Char)
  | [] => none
  | c :: cs =>
      if c = '+' then some (.add, cs)
      else if c = '-' then some (.sub, cs)
      else if c = '*' then some (.mul, cs)
      else if c = '/' then some (.div, cs)
      else if c = '^' then some (.pow, cs)
      else none

/-- Encoding of an optional compound-assignment operator. -/
def encOptionOp : Option BinaryOp → List Char
  | none => ['N']
  | some op => 'S' :: [encOp op]

/-- Parse an optional compound-assignment operator. -/
def parseOptionOp : List Char → Option (Option BinaryOp × List Char)
  | [] => none
  | c :: cs =>
      if c = 'N' then some (none, cs)
      else if c = 'S' then
        match parseOp cs with
        | some (op, rest) => some (some op, rest)
        | none => none
      else none

/-- Encoding of a span: both endpoints. -/
def encSpan (sp : Span) : List Char :=
  encNat sp.start ++ encNat sp.stop

/-- Parse a span. -/
def parseSpan (cs : List Char) : Option (Span × List Char) :=
  match parseNat cs with
  | some (a, rest) =>
      match parseNat rest with
      | some (b, rest') => some (⟨a, b⟩, rest')
      | none => none
  | none => none

mutual

/-- Tagged encoding of an expression node; child lists are count-prefixed. -/
def encExpression : Expression → List Char
  | .identifier n sp => 'i' :: (encString n ++ encSpan sp)
  | .lit v sp => 'l' :: (encString v ++ encSpan sp)
  | .binary op l rhs sp =>
      'b' :: (encOp op :: (encExpression l ++ encExpression rhs ++ encSpan sp))
  | .call f args w sp =>
      'c' :: (encString f ++ encNat args.length ++ encExpressionList args ++
        encOptionNat w ++ encSpan sp)
  | .tupleInit es sp => 't' :: (encNat es.length ++ encExpressionList es ++ encSpan sp)
  | .tupleAccess t i sp => 'a' :: (encExpression t ++ encNat i ++ encSpan sp)

/-- Concatenated encoding of sibling expressions. -/
def encExpressionList : List Expression → List Char
  | [] => []
  | e :: es => encExpression e ++ encExpressionList es

end

mutual

/-- Fueled recursive-descent parser for expressions; the fuel only needs to
exceed the nesting depth of the encoded tree. -/
def parseExpression : Nat → List Char → Option (Expression × List Char)
  | 0, _ => none
  | _ + 1, [] => none
  | fuel + 1, c :: cs =>
      if c = 'i' then
        match parseString cs with
        | some (n, r1) =>
            match parseSpan r1 with
            | some (sp, r2) => some (.identifier n sp, r2)
            | none => none
        | none => none
      else if c = 'l' then
        match parseString cs with
        | some (v, r1) =>
            match parseSpan r1 with
            | some (sp, r2) => some (.lit v sp, r2)
            | none => none
        | none => none
      else if c = 'b' then
        match parseOp cs with
        | some (op, r1) =>
            match parseExpression fuel r1 with
            | some (l, r2) =>
                match parseExpression fuel r2 with
                | some (rhs, r3) =>
                    match parseSpan r3 with
                    | some (sp, r4) => some (.binary op l rhs sp, r4)
                    | none => none
                | none => none
            | none => none
        | none => none
      else if c = 'c' then
        match parseString cs with
        | some (f, r1) =>
            match parseNat r1 with
            | some (n, r2) =>
                match parseExpressionList fuel n r2 with
                | some (args, r3) =>
                    match parseOptionNat r3 with
                    | some (w, r4) =>
                        match parseSpan r4 with
                        | some (sp, r5) => some (.call f args w sp, r5)
                        | none => none
                    | none => none
                | none => none
            | none => none
        | none => none
      else if c = 't' then
        match parseNat cs with
        | some (n, r1) =>
            match parseExpressionList fuel n r1 with
            | some (es, r2) =>
                match parseSpan r2 with
                | some (sp, r3) => some (.tupleInit es sp, r3)
                | none => none
            | none => none
        | none => none
      else if c = 'a' then
        match parseExpression fuel cs with
        | some (t, r1) =>
            match parseNat r1 with
            | some (i, r2) =>
                match parseSpan r2 with
                | some (sp, r3) => some (.tupleAccess t i sp, r3)
                | none => none
            | none => none
          | none => none
      else none

/-- Parse `n` consecutive encoded expressions, spending one fuel per element. -/
def parseExpressionList : Nat → Nat → List Char → Option (List Expression × List Char)
  | _, 0, cs => some ([], cs)
  | 0, _ + 1, _ => none
  | fuel + 1, n + 1, cs =>
      match parseExpression fuel cs with
      | some (e, rest) =>
          match parseExpressionList fuel n rest with
          | some (es, rest') => some (e :: es, rest')
          | none => none
      | none => none

end

mutual

/-- Tagged encoding of a statement node; nested statement sequences are
count-prefixed. -/
def encStatement : Statement → List Char
  | .ret v sp => 'r' :: (encExpression v ++ encSpan sp)
  | .definition ns v sp =>
      'd' :: (encNat ns.length ++ encStrings ns ++ encExpression v ++ encSpan sp)
  | .assign op t v sp =>
      'A' :: (encOptionOp op ++ encExpression t ++ encExpression v ++ encSpan sp)
  | .conditional c tb eb sp =>
      'C' :: (encExpression c ++ encNat tb.length ++ encStatementList tb ++
        encNat eb.length ++ encStatementList eb ++ encSpan sp)
  | .iteration x lo hi body sp =>
      'F' :: (encString x ++ encExpression lo ++ encExpression hi ++
        encNat body.length ++ encStatementList body ++ encSpan sp)
  | .block ss sp => 'B' :: (encNat ss.length ++ encStatementList ss ++ encSpan sp)

/-- Concatenated encoding of a statement sequence. -/
def encStatementList : List Statement → List Char
  | [] => []
  | s :: ss => encStatement s ++ encStatementList ss

end

mutual

/-- Fueled recursive-descent parser for statements; expression children are
parsed by `parseExpression` at the same fuel. -/
def parseStatement : Nat → List Char → Option (Statement × List Char)
  | 0, _ => none
  | _ + 1, [] => none
  | fuel + 1, c :: cs =>
      if c = 'r' then
        match parseExpression fuel cs with
        | some (v, r1) =>
            match parseSpan r1 with
            | some (sp, r2) => some (.ret v sp, r2)
            | none => none
        | none => none
      else if c = 'd' then
        match parseNat cs with
        | some (n, r1) =>
            match parseStrings n r1 with
            | some (ns, r2) =>
                match parseExpression fuel r2 with
                | some (v, r3) =>
                    match parseSpan r3 with
                    | some (sp, r4) => some (.definition ns v sp, r4)
                    | none => none
                | none => none
            | none => none
        | none => none
      else if c = 'A' then
        match parseOptionOp cs with
        | some (op, r1) =>
            match parseExpression fuel r1 with
            | some (t, r2) =>
                match parseExpression fuel r2 with
                | some (v, r3) =>
                    match parseSpan r3 with
                    | some (sp, r4) => some (.assign op t v sp, r4)
                    | none => none
                | none => none
            | none => none
        | none => none
      else if c = 'C' then
        match parseExpression fuel cs with
        | some (cond, r1) =>
            match parseNat r1 with
            | some (n, r2) =>
                match parseStatementList fuel n r2 with
                | some (tb, r3) =>
                    match parseNat r3 with
                    | some (m, r4) =>
                        match parseStatementList fuel m r4 with
                        | some (eb, r5) =>
                            match parseSpan r5 with
                            | some (sp, r6) => some (.conditional cond tb eb sp, r6)
                            | none => none
                        | none => none
                    | none => none
                | none => none
            | none => none
        | none => none
      else if c = 'F' then
        match parseString cs with
        | some (x, r1) =>
            match parseExpression fuel r1 with
            | some (lo, r2) =>
                match parseExpression fuel r2 with
                | some (hi, r3) =>
                    match parseNat r3 with
                    | some (n, r4) =>
                        match parseStatementList fuel n r4 with
                        | some (body, r5) =>
                            match parseSpan r5 with
                            | some (sp, r6) => some (.iteration x lo hi body sp, r6)
                            | none => none
                        | none => none
                    | none => none
                | none => none
            | none => none
        | none => none
      else if c = 'B' then
        match parseNat cs with
        | some (n, r1) =>
            match parseStatementList fuel n r1 with
            | some (ss, r2) =>
                match parseSpan r2 with
                | some (sp, r3) => some (.block ss sp, r3)
                | none => none
            | none => none
        | none => none
      else none

/-- Parse `n` consecutive encoded statements, spending one fuel per element. -/
def parseStatementList : Nat → Nat → List Char → Option (List Statement × List Char)
  | _, 0, cs => some ([], cs)
  | 0, _ + 1, _ => none
  | fuel + 1, n + 1, cs =>
      match parseStatement fuel cs with
      | some (s, rest) =>
          match parseStatementList fuel n rest with
          | some (ss, rest') => some (s :: ss, rest')
          | none => none
      | none => none

end

/-- Encoding of one function definition. -/
def encFunction (f : Function) : List Char :=
  encString f.identifier ++ encNat f.input.length ++ encStrings f.input ++
    encNat f.block.length ++ encStatementList f.block ++ encSpan f.span

/-- Parse one function definition. -/
def parseFunction (fuel : Nat) (cs : List Char) : Option (Function × List Char) :=
  match parseString cs with
  | some (idn, r1) =>
      match parseNat r1 with
      | some (n, r2) =>
          match parseStrings n r2 with
          | some (inp, r3) =>
              match parseNat r3 with
              | some (m, r4) =>
                  match parseStatementList fuel m r4 with
                  | some (body, r5) =>
                      match parseSpan r5 with
                      | some (sp, r6) => some (⟨idn, inp, body, sp⟩, r6)
                      | none => none
                  | none => none
              | none => none
          | none => none
      | none => none
  | none => none

/-- Concatenated encoding of the name-to-function mapping. -/
def encNamedFunctions : List (String × Function) → List Char
  | [] => []
  | (n, f) :: fs => encString n ++ encFunction f ++ encNamedFunctions fs

/-- Parse `n` consecutive name-function pairs. -/
def parseNamedFunctions (fuel : Nat) : Nat → List Char → Option (List (String × Function) × List Char)
  | 0, cs => some ([], cs)
  | n + 1, cs =>
      match parseString cs with
      | some (nm, r1) =>
          match parseFunction fuel r1 with
          | some (f, r2) =>
              match parseNamedFunctions fuel n r2 with
              | some (fs, r3) => some ((nm, f) :: fs, r3)
              | none => none
          | none => none
      | none => none

/-- Modelled from the spec: the complete persisted document for a program. -/
def encProgram (p : Program) : List Char :=
  encNat p.imports.length ++ encStrings p.imports ++
    encNat p.functions.length ++ encNamedFunctions p.functions

/-- Parse a complete persisted program document. -/
def parseProgram (fuel : Nat) (cs : List Char) : Option (Program × List Char) :=
  match parseNat cs with
  | some (n, r1) =>
      match parseStrings n r1 with
      | some (imps, r2) =>
          match parseNat r2 with
          | some (m, r3) =>
              match parseNamedFunctions fuel m r3 with
              | some (fns, r4) => some (⟨imps, fns⟩, r4)
              | none => none
          | none => none
      | none => none
  | none => none

mutual

/-- Nesting depth of an expression, a lower bound for the parser fuel. -/
def edepth : Expression → Nat
  | .identifier _ _ => 1
  | .lit _ _ => 1
  | .binary _ l rhs _ => 1 + max (edepth l) (edepth rhs)
  | .call _ args _ _ => 1 + edepthList args
  | .tupleInit es _ => 1 + edepthList es
  | .tupleAccess t _ _ => 1 + edepth t

/-- Fuel requirement of sibling expressions (one unit per list element). -/
def edepthList : List Expression → Nat
  | [] => 0
  | e :: es => 1 + max (edepth e) (edepthList es)

end

mutual

/-- Nesting depth of a statement, a lower bound for the parser fuel. -/
def sdepth : Statement → Nat
  | .ret v _ => 1 + edepth v
  | .definition _ v _ => 1 + edepth v
  | .assign _ t v _ => 1 + max (edepth t) (edepth v)
  | .conditional c tb eb _ => 1 + max (edepth c) (max (sdepthList tb) (sdepthList eb))
  | .iteration _ lo hi body _ => 1 + max (edepth lo) (max (edepth hi) (sdepthList body))
  | .block ss _ => 1 + sdepthList ss

/-- Fuel requirement of sibling statements (one unit per list element). -/
def sdepthList : List Statement → Nat
  | [] => 0
  | s :: ss => 1 + max (sdepth s) (sdepthList ss)

end

/-- `Ast::to_json_string`: serializes the ast into a string
(`serde_json::to_string_pretty`, modelled by the lossless encoder). -/
def Ast.to_json_string (a : Ast) : Except AstError String :=
  .ok (String.mk (encProgram a.ast))

/-- `Ast::from_json_string`: deserializes a string into an ast; a document
that does not parse as a complete program is a typed deserialization error. -/
def Ast.from_json_string (json : String) : Except AstError Ast :=
  match parseProgram (json.data.length + 1) json.data with
  | some (p, []) => .ok (Ast.new p)
  | _ => .error .failedToReadJsonStringToAst

/-- Whether a string is a well-formed serialized program document (it parses
completely as one program). -/
def wellFormedDocument (s : String) : Bool :=
  match parseProgram (s.data.length + 1) s.data with
  | some (_, []) => true
  | _ => false

/-- Modelled from the spec: the file-system state seen by the facade's file
API — the contents found at each path, and which paths the operating system
lets `File::create` and the buffered serde write succeed on (both I/O
failures are environmental and can occur independently: a create may succeed
and the subsequent write to the open file still fail). -/
structure FileSystem where
  files : String → Option String
  createOk : String → Bool
  writeOk : String → Bool

/-- `path.push(file_name)`: the path of the written file. -/
def pathJoin (path fileName : String) : String :=
  path ++ "/" ++ fileName

/-- Creating or overwriting one file in the file-system state. -/
def FileSystem.write (fs : FileSystem) (p c : String) : FileSystem :=
  { fs with files := fun q => if q = p then some c else fs.files q }

/-- `Ast::to_json_file`: creates or overwrites `path/file_name` with the
serialized tree.  A failing `File::create` is the typed
`failedToCreateAstJsonFile` error wrapping the path; after a successful
create, a failing `serde_json::to_writer_pretty` on the opened file is the
typed `failedToWriteAstToJsonFile` error wrapping the path (`lib.rs:110-113`). -/
def Ast.to_json_file (a : Ast) (fs : FileSystem) (path fileName : String) :
    Except AstError FileSystem :=
  if fs.createOk (pathJoin path fileName) then
    if fs.writeOk (pathJoin path fileName) then
      .ok (fs.write (pathJoin path fileName) (String.mk (encProgram a.ast)))
    else
      .error (.failedToWriteAstToJsonFile (pathJoin path fileName))
  else
    .error (.failedToCreateAstJsonFile (pathJoin path fileName))

/-- `Ast::from_json_file`: reads `path` and deserializes; a failing read is a
typed error wrapping the path. -/
def Ast.from_json_file (fs : FileSystem) (path : String) : Except AstError Ast :=
  match fs.files path with
  | some data => Ast.from_json_string data
  | none => .error (.failedToReadJsonFile path)

/-- Span used by the concrete example programs. -/
def spEx : Span := ⟨10, 20⟩

/-- Example program: a `main` function whose body is the statement `x += 1;`
(the spec's §8 scenario 1). -/
def exPlusProgram : Program :=
  ⟨[], [("main", ⟨"main", [],
    [.assign (some .add) (.identifier "x" spEx) (.lit "1" spEx) spEx], spEx⟩)]⟩

/-- The canonical form of `exPlusProgram`: its body is `x = x + 1;`. -/
def exPlusCanonProgram : Program :=
  ⟨[], [("main", ⟨"main", [],
    [.assign none (.identifier "x" spEx)
      (.binary .add (.identifier "x" spEx) (.lit "1" spEx) spEx) spEx], spEx⟩)]⟩

/-- Example program: `let (a, b, c) = pair();` with `pair` a width-2 tuple
producer (the spec's §8 scenario 3, an arity mismatch). -/
def exArityProgram : Program :=
  ⟨[], [("main", ⟨"main", [],
    [.definition ["a", "b", "c"] (.call "pair" [] (some 2) spEx) spEx], spEx⟩)]⟩

/-- The serialized document of `exPlusProgram`. -/
def exPlusJson : String := String.mk (encProgram exPlusProgram)

/-- An example file-system state with no files where every file operation
succeeds. -/
def fsEmpty : FileSystem := ⟨fun _ => none, fun _ => true, fun _ => true⟩

/-- An example file-system state where every create fails. -/
def fsReadOnly : FileSystem := ⟨fun _ => none, fun _ => false, fun _ => false⟩

/-- An example file-system state where creates succeed but every write to the
opened file fails. -/
def fsWriteFail : FileSystem := ⟨fun _ => none, fun _ => true, fun _ => false⟩

/-- The canonicalizer keeps the default pass-through expression operation. -/
theorem Canonicalizer_reduceExpression_eq :
    Canonicalizer.reduceExpression = fun e => Except.ok e := rfl

/-- The canonicalizer's statement operation is the rule set `canonicalizeStatement`. -/
theorem Canonicalizer_reduceStatement_eq :
    Canonicalizer.reduceStatement = canonicalizeStatement := rfl

/-- The canonicalizer keeps the default pass-through function operation. -/
theorem Canonicalizer_reduceFunction_eq :
    Canonicalizer.reduceFunction = fun f => Except.ok f := rfl

/-- The canonicalizer keeps the default pass-through program operation. -/
theorem Canonicalizer_reduceProgram_eq :
    Canonicalizer.reduceProgram = fun p => Except.ok p := rfl

/-- No canonicalization rule touches expression nodes: the canonicalizer maps
every expression (and every expression list) to itself. -/
theorem canonicalizer_expr_id :
    (∀ e, ReconstructingDirector.reduceExpression Canonicalizer e = .ok e) ∧
    (∀ es, ReconstructingDirector.reduceExpressions Canonicalizer es = .ok es) := by
  have h1 : ∀ (n : String) (sp : Span),
      ReconstructingDirector.reduceExpression Canonicalizer (.identifier n sp) = .ok (.identifier n sp) := by
    intro n sp
    simp [ReconstructingDirector.reduceExpression, Canonicalizer_reduceExpression_eq]
  have h2 : ∀ (v : String) (sp : Span),
      ReconstructingDirector.reduceExpression Canonicalizer (.lit v sp) = .ok (.lit v sp) := by
    intro v sp
    simp [ReconstructingDirector.reduceExpression, Canonicalizer_reduceExpression_eq]
  have h3 : ∀ op l rhs sp,
      ReconstructingDirector.reduceExpression Canonicalizer l = .ok l →
      ReconstructingDirector.reduceExpression Canonicalizer rhs = .ok rhs →
      ReconstructingDirector.reduceExpression Canonicalizer (.binary op l rhs sp) = .ok (.binary op l rhs sp) := by
    intro op l rhs sp hl hr
    simp [ReconstructingDirector.reduceExpression, hl, hr, Canonicalizer_reduceExpression_eq,
      bind, Except.bind]
  have h4 : ∀ f args w sp,
      ReconstructingDirector.reduceExpressions Canonicalizer args = .ok args →
      ReconstructingDirector.reduceExpression Canonicalizer (.call f args w sp) = .ok (.call f args w sp) := by
    intro f args w sp ha
    simp [ReconstructingDirector.reduceExpression, ha, Canonicalizer_reduceExpression_eq,
      bind, Except.bind]
  have h5 : ∀ es sp,
      ReconstructingDirector.reduceExpressions Canonicalizer es = .ok es →
      ReconstructingDirector.reduceExpression Canonicalizer (.tupleInit es sp) = .ok (.tupleInit es sp) := by
    intro es sp he
    simp [ReconstructingDirector.reduceExpression, he, Canonicalizer_reduceExpression_eq,
      bind, Except.bind]
  have h6 : ∀ t i sp,
      ReconstructingDirector.reduceExpression Canonicalizer t = .ok t →
      ReconstructingDirector.reduceExpression Canonicalizer (.tupleAccess t i sp) = .ok (.tupleAccess t i sp) := by
    intro t i sp ht
    simp [ReconstructingDirector.reduceExpression, ht, Canonicalizer_reduceExpression_eq,
      bind, Except.bind]
  have h7 : ReconstructingDirector.reduceExpressions Canonicalizer ([] : List Expression) = .ok [] := by
    simp [ReconstructingDirector.reduceExpressions]
  have h8 : ∀ e es,
      ReconstructingDirector.reduceExpression Canonicalizer e = .ok e →
      ReconstructingDirector.reduceExpressions Canonicalizer es = .ok es →
      ReconstructingDirector.reduceExpressions Canonicalizer (e :: es) = .ok (e :: es) := by
    intro e es he hes
    simp [ReconstructingDirector.reduceExpressions, he, hes, bind, Except.bind]
  exact ⟨Expression.inductionOn _ _ h1 h2 h3 h4 h5 h6 h7 h8,
         Expression.inductionOnList _ _ h1 h2 h3 h4 h5 h6 h7 h8⟩

/-- Expression form of `canonicalizer_expr_id`. -/
theorem reduceExpression_canon_id (e : Expression) :
    ReconstructingDirector.reduceExpression Canonicalizer e = .ok e :=
  canonicalizer_expr_id.1 e

/-- Expression-list form of `canonicalizer_expr_id`. -/
theorem reduceExpressions_canon_id (es : List Expression) :
    ReconstructingDirector.reduceExpressions Canonicalizer es = .ok es :=
  canonicalizer_expr_id.2 es

/-- A plain assignment passes the canonicalizer unchanged. -/
theorem canonicalizeStatement_assign_none (t v : Expression) (sp : Span) :
    canonicalizeStatement (.assign none t v sp) = .ok [.assign none t v sp] := rfl

/-- The compound-assignment rule: with a valid target, `target op= value`
becomes `target = target op value`. -/
theorem canonicalizeStatement_assign_some (op : BinaryOp) (t v : Expression) (sp : Span)
    (h : t.isValidTarget = true) :
    canonicalizeStatement (.assign (some op) t v sp) =
      .ok [.assign none t (.binary op t v sp) sp] := by
  simp [canonicalizeStatement, h]

/-- The compound-assignment rule fails on an invalid assignment target. -/
theorem canonicalizeStatement_assign_invalid (op : BinaryOp) (t v : Expression) (sp : Span)
    (h : t.isValidTarget = false) :
    canonicalizeStatement (.assign (some op) t v sp) = .error (.invalidAssignmentTarget sp) := by
  simp [canonicalizeStatement, h]

/-- A single-binding (or empty) definition passes the canonicalizer unchanged. -/
theorem canonicalizeStatement_definition_single (ns : List String) (v : Expression) (sp : Span)
    (h : ns.length ≤ 1) :
    canonicalizeStatement (.definition ns v sp) = .ok [.definition ns v sp] := by
  simp [canonicalizeStatement, h]

/-- A multi-binding definition whose initializer is not tuple-producing passes
the canonicalizer unchanged. -/
theorem canonicalizeStatement_definition_nowidth (ns : List String) (v : Expression) (sp : Span)
    (hn : 1 < ns.length) (hw : v.tupleWidth = none) :
    canonicalizeStatement (.definition ns v sp) = .ok [.definition ns v sp] := by
  simp [canonicalizeStatement, Nat.not_le_of_lt hn, hw]

/-- The multi-binding rule: matching arity splits the definition into one
single-binding definition per declared name, bound to the tuple component of
the same position, in declaration order. -/
theorem canonicalizeStatement_definition_split (ns : List String) (v : Expression) (sp : Span)
    (hn : 1 < ns.length) (hw : v.tupleWidth = some ns.length) :
    canonicalizeStatement (.definition ns v sp) =
      .ok (ns.enum.map fun p => .definition [p.2] (.tupleAccess v p.1 sp) sp) := by
  simp [canonicalizeStatement, Nat.not_le_of_lt hn, hw]

/-- The multi-binding rule: an arity mismatch between the declared names and
the tuple width is a canonicalization error carrying the definition's span. -/
theorem canonicalizeStatement_definition_mismatch (ns : List String) (v : Expression) (sp : Span)
    (w : Nat) (hn : 1 < ns.length) (hw : v.tupleWidth = some w) (hne : w ≠ ns.length) :
    canonicalizeStatement (.definition ns v sp) =
      .error (.tupleArityMismatch ns.length w sp) := by
  simp [canonicalizeStatement, Nat.not_le_of_lt hn, hw, hne]

/-- A return statement passes the whole canonicalization traversal unchanged. -/
theorem reduceStatement_canon_ret (v : Expression) (sp : Span) :
    ReconstructingDirector.reduceStatement Canonicalizer (.ret v sp) = .ok [.ret v sp] := by
  simp [ReconstructingDirector.reduceStatement, reduceExpression_canon_id,
    Canonicalizer_reduceStatement_eq, canonicalizeStatement, bind, Except.bind]

/-- On a definition, the traversal reduces to the canonicalizer rule (the
initializer expression is untouched). -/
theorem reduceStatement_canon_definition (ns : List String) (v : Expression) (sp : Span) :
    ReconstructingDirector.reduceStatement Canonicalizer (.definition ns v sp) =
      canonicalizeStatement (.definition ns v sp) := by
  simp [ReconstructingDirector.reduceStatement, reduceExpression_canon_id,
    Canonicalizer_reduceStatement_eq, bind, Except.bind]

/-- On an assignment, the traversal reduces to the canonicalizer rule (target
and value expressions are untouched). -/
theorem reduceStatement_canon_assign (op : Option BinaryOp) (t v : Expression) (sp : Span) :
    ReconstructingDirector.reduceStatement Canonicalizer (.assign op t v sp) =
      canonicalizeStatement (.assign op t v sp) := by
  simp [ReconstructingDirector.reduceStatement, reduceExpression_canon_id,
    Canonicalizer_reduceStatement_eq, bind, Except.bind]

/-- On a conditional, the traversal reduces both branches and rebuilds the
node; the canonicalizer passes the rebuilt conditional through. -/
theorem reduceStatement_canon_conditional (c : Expression) (tb eb : List Statement) (sp : Span) :
    ReconstructingDirector.reduceStatement Canonicalizer (.conditional c tb eb sp) =
      Except.bind (ReconstructingDirector.reduceStatements Canonicalizer tb) (fun tb' =>
        Except.bind (ReconstructingDirector.reduceStatements Canonicalizer eb) (fun eb' =>
          .ok [.conditional c tb' eb' sp])) := by
  simp [ReconstructingDirector.reduceStatement, reduceExpression_canon_id,
    Canonicalizer_reduceStatement_eq, bind, Except.bind]
  cases ReconstructingDirector.reduceStatements Canonicalizer tb with
  | error e => rfl
  | ok tb' =>
    cases ReconstructingDirector.reduceStatements Canonicalizer eb with
    | error e => rfl
    | ok eb' => simp [canonicalizeStatement]

/-- On an iteration, the traversal reduces the body and rebuilds the node;
the canonicalizer passes the rebuilt iteration through. -/
theorem reduceStatement_canon_iteration (x : String) (lo hi : Expression)
    (body : List Statement) (sp : Span) :
    ReconstructingDirector.reduceStatement Canonicalizer (.iteration x lo hi body sp) =
      Except.bind (ReconstructingDirector.reduceStatements Canonicalizer body) (fun body' =>
        .ok [.iteration x lo hi body' sp]) := by
  simp [ReconstructingDirector.reduceStatement, reduceExpression_canon_id,
    Canonicalizer_reduceStatement_eq, bind, Except.bind]
  cases ReconstructingDirector.reduceStatements Canonicalizer body with
  | error e => rfl
  | ok body' => simp [canonicalizeStatement]

/-- On a block, the traversal reduces the nested statements and rebuilds the
node; the canonicalizer passes the rebuilt block through. -/
theorem reduceStatement_canon_block (ss : List Statement) (sp : Span) :
    ReconstructingDirector.reduceStatement Canonicalizer (.block ss sp) =
      Except.bind (ReconstructingDirector.reduceStatements Canonicalizer ss) (fun ss' =>
        .ok [.block ss' sp]) := by
  simp [ReconstructingDirector.reduceStatement, Canonicalizer_reduceStatement_eq,
    bind, Except.bind]
  cases ReconstructingDirector.reduceStatements Canonicalizer ss with
  | error e => rfl
  | ok ss' => simp [canonicalizeStatement]

/-- Unfolding of statement-sequence reduction at a cons cell. -/
theorem reduceStatements_cons (r : Reducer) (s : Statement) (ss : List Statement) :
    ReconstructingDirector.reduceStatements r (s :: ss) =
      Except.bind (ReconstructingDirector.reduceStatement r s) (fun l =>
        Except.bind (ReconstructingDirector.reduceStatements r ss) (fun ls =>
          .ok (l ++ ls))) := by
  simp [ReconstructingDirector.reduceStatements, bind, Except.bind]

/-- Reduction of a singleton statement sequence is reduction of its statement. -/
theorem reduceStatements_singleton (r : Reducer) (s : Statement) (l : List Statement)
    (h : ReconstructingDirector.reduceStatement r s = .ok l) :
    ReconstructingDirector.reduceStatements r [s] = .ok l := by
  simp [reduceStatements_cons, ReconstructingDirector.reduceStatements, h, bind, Except.bind]

/-- Statement-sequence reduction distributes over append. -/
theorem reduceStatements_append (r : Reducer) (a b : List Statement) :
    ReconstructingDirector.reduceStatements r (a ++ b) =
      Except.bind (ReconstructingDirector.reduceStatements r a) (fun a' =>
        Except.bind (ReconstructingDirector.reduceStatements r b) (fun b' =>
          .ok (a' ++ b'))) := by
  induction a with
  | nil =>
    simp [ReconstructingDirector.reduceStatements, Except.bind]
    cases ReconstructingDirector.reduceStatements r b with
    | error e => rfl
    | ok b' => rfl
  | cons s a ih =>
    simp only [List.cons_append, reduceStatements_cons, ih]
    cases ReconstructingDirector.reduceStatement r s with
    | error e => rfl
    | ok l =>
      simp only [Except.bind]
      cases ReconstructingDirector.reduceStatements r a with
      | error e => rfl
      | ok a' =>
        simp only [Except.bind]
        cases ReconstructingDirector.reduceStatements r b with
        | error e => rfl
        | ok b' => simp [Except.bind, List.append_assoc]

/-- A sequence whose statements each reduce to their own singleton reduces to
itself. -/
theorem reduceStatements_of_singletons (r : Reducer) (l : List Statement)
    (h : ∀ s ∈ l, ReconstructingDirector.reduceStatement r s = .ok [s]) :
    ReconstructingDirector.reduceStatements r l = .ok l := by
  induction l with
  | nil => simp [ReconstructingDirector.reduceStatements]
  | cons s ss ih =>
    have hs := h s (by simp)
    have hss := ih fun t ht => h t (by simp [ht])
    simp [reduceStatements_cons, hs, hss, Except.bind]

/-- Idempotence at statement level: whatever a successful canonicalization
traversal emits for a statement (or statement sequence) reduces to itself on a
second traversal. -/
theorem canon_statement_idempotent :
    (∀ s out, ReconstructingDirector.reduceStatement Canonicalizer s = .ok out →
        ReconstructingDirector.reduceStatements Canonicalizer out = .ok out) ∧
    (∀ ss out, ReconstructingDirector.reduceStatements Canonicalizer ss = .ok out →
        ReconstructingDirector.reduceStatements Canonicalizer out = .ok out) := by
  have hret : ∀ (v : Expression) (sp : Span) out,
      ReconstructingDirector.reduceStatement Canonicalizer (.ret v sp) = .ok out →
      ReconstructingDirector.reduceStatements Canonicalizer out = .ok out := by
    intro v sp out h
    rw [reduceStatement_canon_ret] at h
    cases h
    exact reduceStatements_singleton _ _ _ (reduceStatement_canon_ret v sp)
  have hdef : ∀ (ns : List String) (v : Expression) (sp : Span) out,
      ReconstructingDirector.reduceStatement Canonicalizer (.definition ns v sp) = .ok out →
      ReconstructingDirector.reduceStatements Canonicalizer out = .ok out := by
    intro ns v sp out h
    rw [reduceStatement_canon_definition] at h
    by_cases hn : ns.length ≤ 1
    · rw [canonicalizeStatement_definition_single ns v sp hn] at h
      cases h
      exact reduceStatements_singleton _ _ _
        ((reduceStatement_canon_definition ns v sp).trans
          (canonicalizeStatement_definition_single ns v sp hn))
    · have hn' : 1 < ns.length := Nat.lt_of_not_le hn
      cases hw : v.tupleWidth with
      | none =>
        rw [canonicalizeStatement_definition_nowidth ns v sp hn' hw] at h
        cases h
        exact reduceStatements_singleton _ _ _
          ((reduceStatement_canon_definition ns v sp).trans
            (canonicalizeStatement_definition_nowidth ns v sp hn' hw))
      | some w =>
        by_cases hwe : w = ns.length
        · subst hwe
          rw [canonicalizeStatement_definition_split ns v sp hn' hw] at h
          cases h
          refine reduceStatements_of_singletons _ _ ?_
          intro d hd
          obtain ⟨p, _, rfl⟩ := List.mem_map.mp hd
          exact (reduceStatement_canon_definition _ _ _).trans
            (canonicalizeStatement_definition_single _ _ _ (by simp))
        · rw [canonicalizeStatement_definition_mismatch ns v sp w hn' hw hwe] at h
          cases h
  have hassign : ∀ (op : Option BinaryOp) (t v : Expression) (sp : Span) out,
      ReconstructingDirector.reduceStatement Canonicalizer (.assign op t v sp) = .ok out →
      ReconstructingDirector.reduceStatements Canonicalizer out = .ok out := by
    intro op t v sp out h
    rw [reduceStatement_canon_assign] at h
    cases op with
    | none =>
      rw [canonicalizeStatement_assign_none] at h
      cases h
      exact reduceStatements_singleton _ _ _
        ((reduceStatement_canon_assign none t v sp).trans
          (canonicalizeStatement_assign_none t v sp))
    | some o =>
      cases hv : t.isValidTarget with
      | true =>
        rw [canonicalizeStatement_assign_some o t v sp hv] at h
        cases h
        exact reduceStatements_singleton _ _ _
          ((reduceStatement_canon_assign none t (.binary o t v sp) sp).trans
            (canonicalizeStatement_assign_none t (.binary o t v sp) sp))
      | false =>
        rw [canonicalizeStatement_assign_invalid o t v sp hv] at h
        cases h
  refine ⟨Statement.inductionOn _ (fun ss => ∀ out,
      ReconstructingDirector.reduceStatements Canonicalizer ss = .ok out →
      ReconstructingDirector.reduceStatements Canonicalizer out = .ok out)
      hret hdef hassign ?hcond ?hiter ?hblock ?hnil ?hcons,
    Statement.inductionOnList (fun s => ∀ out,
      ReconstructingDirector.reduceStatement Canonicalizer s = .ok out →
      ReconstructingDirector.reduceStatements Canonicalizer out = .ok out) _
      hret hdef hassign ?hcond ?hiter ?hblock ?hnil ?hcons⟩
  case hcond =>
    intro c tb eb sp qtb qeb out h
    rw [reduceStatement_canon_conditional] at h
    cases htb : ReconstructingDirector.reduceStatements Canonicalizer tb with
    | error e => rw [htb] at h; cases h
    | ok tb' =>
      cases heb : ReconstructingDirector.reduceStatements Canonicalizer eb with
      | error e => rw [htb, heb] at h; cases h
      | ok eb' =>
        rw [htb, heb] at h
        cases h
        refine reduceStatements_singleton _ _ _ ?_
        rw [reduceStatement_canon_conditional, qtb tb' htb, qeb eb' heb]
        simp [Except.bind]
  case hiter =>
    intro x lo hi body sp qbody out h
    rw [reduceStatement_canon_iteration] at h
    cases hb : ReconstructingDirector.reduceStatements Canonicalizer body with
    | error e => rw [hb] at h; cases h
    | ok body' =>
      rw [hb] at h
      cases h
      refine reduceStatements_singleton _ _ _ ?_
      rw [reduceStatement_canon_iteration, qbody body' hb]
      simp [Except.bind]
  case hblock =>
    intro ss sp qss out h
    rw [reduceStatement_canon_block] at h
    cases hb : ReconstructingDirector.reduceStatements Canonicalizer ss with
    | error e => rw [hb] at h; cases h
    | ok ss' =>
      rw [hb] at h
      cases h
      refine reduceStatements_singleton _ _ _ ?_
      rw [reduceStatement_canon_block, qss ss' hb]
      simp [Except.bind]
  case hnil =>
    intro out h
    simp [ReconstructingDirector.reduceStatements] at h
    subst h
    simp [ReconstructingDirector.reduceStatements]
  case hcons =>
    intro s ss ps qss out h
    rw [reduceStatements_cons] at h
    cases hs : ReconstructingDirector.reduceStatement Canonicalizer s with
    | error e => rw [hs] at h; cases h
    | ok l1 =>
      cases hss : ReconstructingDirector.reduceStatements Canonicalizer ss with
      | error e => rw [hs, hss] at h; cases h
      | ok l2 =>
        rw [hs, hss] at h
        cases h
        rw [reduceStatements_append, ps l1 hs, qss l2 hss]
        simp [Except.bind]

/-- Rebuilding a string from its character data is the identity. -/
theorem string_mk_data (s : String) : String.mk s.data = s := rfl

/-- The unary number codec round-trips, leaving any suffix intact. -/
theorem parseNat_enc (n : Nat) (rest : List Char) :
    parseNat (encNat n ++ rest) = some (n, rest) := by
  induction n with
  | zero => simp [encNat, parseNat]
  | succ n ih =>
    have ih' : parseNat (List.replicate n 'I' ++ (';' :: rest)) = some (n, rest) := by
      simpa [encNat, List.append_assoc] using ih
    simp [encNat, List.replicate_succ, parseNat, ih']

/-- The length-prefixed string codec round-trips. -/
theorem parseString_enc (s : String) (rest : List Char) :
    parseString (encString s ++ rest) = some (s, rest) := by
  simp only [encString, List.append_assoc, parseString, parseNat_enc]
  rw [if_pos]
  · rw [show s.length = s.data.length from rfl, List.take_left, List.drop_left, string_mk_data]
  · rw [show s.length = s.data.length from rfl, List.length_append]
    omega

/-- The span codec round-trips. -/
theorem parseSpan_enc (sp : Span) (rest : List Char) :
    parseSpan (encSpan sp ++ rest) = some (sp, rest) := by
  simp [encSpan, parseSpan, List.append_assoc, parseNat_enc]

/-- The operator codec round-trips. -/
theorem parseOp_enc (op : BinaryOp) (rest : List Char) :
    parseOp (encOp op :: rest) = some (op, rest) := by
  cases op <;> simp [encOp, parseOp]

/-- The optional-number codec round-trips. -/
theorem parseOptionNat_enc (w : Option Nat) (rest : List Char) :
    parseOptionNat (encOptionNat w ++ rest) = some (w, rest) := by
  cases w with
  | none => simp [encOptionNat, parseOptionNat]
  | some n => simp [encOptionNat, parseOptionNat, parseNat_enc]

/-- The optional-operator codec round-trips. -/
theorem parseOptionOp_enc (op : Option BinaryOp) (rest : List Char) :
    parseOptionOp (encOptionOp op ++ rest) = some (op, rest) := by
  cases op with
  | none => simp [encOptionOp, parseOptionOp]
  | some o => simp [encOptionOp, parseOptionOp, parseOp_enc]

/-- The string-list codec round-trips at the list's own length. -/
theorem parseStrings_enc (l : List String) (rest : List Char) :
    parseStrings l.length (encStrings l ++ rest) = some (l, rest) := by
  induction l with
  | nil => simp [encStrings, parseStrings]
  | cons s ss ih => simp [encStrings, parseStrings, List.append_assoc, parseString_enc, ih]

/-- The expression codec round-trips at any fuel at least the expression's
fuel requirement, for expressions and expression lists simultaneously. -/
theorem parseExpression_enc_all :
    (∀ e : Expression, ∀ fuel rest, edepth e ≤ fuel →
      parseExpression fuel (encExpression e ++ rest) = some (e, rest)) ∧
    (∀ es : List Expression, ∀ fuel rest, edepthList es ≤ fuel →
      parseExpressionList fuel es.length (encExpressionList es ++ rest) = some (es, rest)) := by
  have h1 : ∀ (n : String) (sp : Span), ∀ fuel rest, edepth (.identifier n sp) ≤ fuel →
      parseExpression fuel (encExpression (.identifier n sp) ++ rest) =
        some (.identifier n sp, rest) := by
    intro n sp fuel rest h
    rw [edepth] at h
    cases fuel with
    | zero => omega
    | succ g =>
      simp [encExpression, parseExpression, List.append_assoc, parseString_enc, parseSpan_enc]
  have h2 : ∀ (v : String) (sp : Span), ∀ fuel rest, edepth (.lit v sp) ≤ fuel →
      parseExpression fuel (encExpression (.lit v sp) ++ rest) = some (.lit v sp, rest) := by
    intro v sp fuel rest h
    rw [edepth] at h
    cases fuel with
    | zero => omega
    | succ g =>
      simp [encExpression, parseExpression, List.append_assoc, parseString_enc, parseSpan_enc]
  have h3 : ∀ op l rhs sp,
      (∀ fuel rest, edepth l ≤ fuel → parseExpression fuel (encExpression l ++ rest) = some (l, rest)) →
      (∀ fuel rest, edepth rhs ≤ fuel → parseExpression fuel (encExpression rhs ++ rest) = some (rhs, rest)) →
      ∀ fuel rest, edepth (.binary op l rhs sp) ≤ fuel →
      parseExpression fuel (encExpression (.binary op l rhs sp) ++ rest) =
        some (.binary op l rhs sp, rest) := by
    intro op l rhs sp ihl ihr fuel rest h
    rw [edepth] at h
    cases fuel with
    | zero => omega
    | succ g =>
      simp [encExpression, parseExpression, List.append_assoc, parseOp_enc,
        ihl g _ (by omega), ihr g _ (by omega), parseSpan_enc]
  have h4 : ∀ f args w sp,
      (∀ fuel rest, edepthList args ≤ fuel →
        parseExpressionList fuel args.length (encExpressionList args ++ rest) = some (args, rest)) →
      ∀ fuel rest, edepth (.call f args w sp) ≤ fuel →
      parseExpression fuel (encExpression (.call f args w sp) ++ rest) =
        some (.call f args w sp, rest) := by
    intro f args w sp iha fuel rest h
    rw [edepth] at h
    cases fuel with
    | zero => omega
    | succ g =>
      simp [encExpression, parseExpression, List.append_assoc, parseString_enc,
        parseNat_enc, iha g _ (by omega), parseOptionNat_enc, parseSpan_enc]
  have h5 : ∀ es sp,
      (∀ fuel rest, edepthList es ≤ fuel →
        parseExpressionList fuel es.length (encExpressionList es ++ rest) = some (es, rest)) →
      ∀ fuel rest, edepth (.tupleInit es sp) ≤ fuel →
      parseExpression fuel (encExpression (.tupleInit es sp) ++ rest) =
        some (.tupleInit es sp, rest) := by
    intro es sp ihe fuel rest h
    rw [edepth] at h
    cases fuel with
    | zero => omega
    | succ g =>
      simp [encExpression, parseExpression, List.append_assoc, parseNat_enc,
        ihe g _ (by omega), parseSpan_enc]
  have h6 : ∀ t i sp,
      (∀ fuel rest, edepth t ≤ fuel → parseExpression fuel (encExpression t ++ rest) = some (t, rest)) →
      ∀ fuel rest, edepth (.tupleAccess t i sp) ≤ fuel →
      parseExpression fuel (encExpression (.tupleAccess t i sp) ++ rest) =
        some (.tupleAccess t i sp, rest) := by
    intro t i sp iht fuel rest h
    rw [edepth] at h
    cases fuel with
    | zero => omega
    | succ g =>
      simp [encExpression, parseExpression, List.append_assoc, iht g _ (by omega),
        parseNat_enc, parseSpan_enc]
  have h7 : ∀ fuel rest, edepthList ([] : List Expression) ≤ fuel →
      parseExpressionList fuel ([] : List Expression).length
          (encExpressionList [] ++ rest) =
        some (([] : List Expression), rest) := by
    intro fuel rest _
    simp [encExpressionList, parseExpressionList]
  have h8 : ∀ e es,
      (∀ fuel rest, edepth e ≤ fuel → parseExpression fuel (encExpression e ++ rest) = some (e, rest)) →
      (∀ fuel rest, edepthList es ≤ fuel →
        parseExpressionList fuel es.length (encExpressionList es ++ rest) = some (es, rest)) →
      ∀ fuel rest, edepthList (e :: es) ≤ fuel →
      parseExpressionList fuel (e :: es).length (encExpressionList (e :: es) ++ rest) =
        some (e :: es, rest) := by
    intro e es ihe ihes fuel rest h
    rw [edepthList] at h
    cases fuel with
    | zero => omega
    | succ g =>
      simp [encExpressionList, parseExpressionList, List.append_assoc,
        ihe g _ (by omega), ihes g _ (by omega)]
  exact ⟨Expression.inductionOn _ _ h1 h2 h3 h4 h5 h6 h7 h8,
         Expression.inductionOnList _ _ h1 h2 h3 h4 h5 h6 h7 h8⟩

/-- Expression form of `parseExpression_enc_all`. -/
theorem parseExpression_enc (e : Expression) (fuel : Nat) (rest : List Char)
    (h : edepth e ≤ fuel) :
    parseExpression fuel (encExpression e ++ rest) = some (e, rest) :=
  parseExpression_enc_all.1 e fuel rest h

/-- Expression-list form of `parseExpression_enc_all`. -/
theorem parseExpressionList_enc (es : List Expression) (fuel : Nat) (rest : List Char)
    (h : edepthList es ≤ fuel) :
    parseExpressionList fuel es.length (encExpressionList es ++ rest) = some (es, rest) :=
  parseExpression_enc_all.2 es fuel rest h

/-- The statement codec round-trips at any fuel at least the statement's
fuel requirement, for statements and statement lists simultaneously. -/
theorem parseStatement_enc_all :
    (∀ s : Statement, ∀ fuel rest, sdepth s ≤ fuel →
      parseStatement fuel (encStatement s ++ rest) = some (s, rest)) ∧
    (∀ ss : List Statement, ∀ fuel rest, sdepthList ss ≤ fuel →
      parseStatementList fuel ss.length (encStatementList ss ++ rest) = some (ss, rest)) := by
  have hret : ∀ (v : Expression) (sp : Span), ∀ fuel rest, sdepth (.ret v sp) ≤ fuel →
      parseStatement fuel (encStatement (.ret v sp) ++ rest) = some (.ret v sp, rest) := by
    intro v sp fuel rest h
    rw [sdepth] at h
    cases fuel with
    | zero => omega
    | succ g =>
      simp [encStatement, parseStatement, List.append_assoc,
        parseExpression_enc v g _ (by omega), parseSpan_enc]
  have hdef : ∀ (ns : List String) (v : Expression) (sp : Span), ∀ fuel rest,
      sdepth (.definition ns v sp) ≤ fuel →
      parseStatement fuel (encStatement (.definition ns v sp) ++ rest) =
        some (.definition ns v sp, rest) := by
    intro ns v sp fuel rest h
    rw [sdepth] at h
    cases fuel with
    | zero => omega
    | succ g =>
      simp [encStatement, parseStatement, List.append_assoc, parseNat_enc,
        parseStrings_enc, parseExpression_enc v g _ (by omega), parseSpan_enc]
  have hassign : ∀ (op : Option BinaryOp) (t v : Expression) (sp : Span), ∀ fuel rest,
      sdepth (.assign op t v sp) ≤ fuel →
      parseStatement fuel (encStatement (.assign op t v sp) ++ rest) =
        some (.assign op t v sp, rest) := by
    intro op t v sp fuel rest h
    rw [sdepth] at h
    cases fuel with
    | zero => omega
    | succ g =>
      simp [encStatement, parseStatement, List.append_assoc, parseOptionOp_enc,
        parseExpression_enc t g _ (by omega), parseExpression_enc v g _ (by omega),
        parseSpan_enc]
  have hcond : ∀ (c : Expression) (tb eb : List Statement) (sp : Span),
      (∀ fuel rest, sdepthList tb ≤ fuel →
        parseStatementList fuel tb.length (encStatementList tb ++ rest) = some (tb, rest)) →
      (∀ fuel rest, sdepthList eb ≤ fuel →
        parseStatementList fuel eb.length (encStatementList eb ++ rest) = some (eb, rest)) →
      ∀ fuel rest, sdepth (.conditional c tb eb sp) ≤ fuel →
      parseStatement fuel (encStatement (.conditional c tb eb sp) ++ rest) =
        some (.conditional c tb eb sp, rest) := by
    intro c tb eb sp ihtb iheb fuel rest h
    rw [sdepth] at h
    cases fuel with
    | zero => omega
    | succ g =>
      simp [encStatement, parseStatement, List.append_assoc,
        parseExpression_enc c g _ (by omega), parseNat_enc,
        ihtb g _ (by omega), iheb g _ (by omega), parseSpan_enc]
  have hiter : ∀ (x : String) (lo hi : Expression) (body : List Statement) (sp : Span),
      (∀ fuel rest, sdepthList body ≤ fuel →
        parseStatementList fuel body.length (encStatementList body ++ rest) = some (body, rest)) →
      ∀ fuel rest, sdepth (.iteration x lo hi body sp) ≤ fuel →
      parseStatement fuel (encStatement (.iteration x lo hi body sp) ++ rest) =
        some (.iteration x lo hi body sp, rest) := by
    intro x lo hi body sp ihb fuel rest h
    rw [sdepth] at h
    cases fuel with
    | zero => omega
    | succ g =>
      simp [encStatement, parseStatement, List.append_assoc, parseString_enc,
        parseExpression_enc lo g _ (by omega), parseExpression_enc hi g _ (by omega),
        parseNat_enc, ihb g _ (by omega), parseSpan_enc]
  have hblock : ∀ (ss : List Statement) (sp : Span),
      (∀ fuel rest, sdepthList ss ≤ fuel →
        parseStatementList fuel ss.length (encStatementList ss ++ rest) = some (ss, rest)) →
      ∀ fuel rest, sdepth (.block ss sp) ≤ fuel →
      parseStatement fuel (encStatement (.block ss sp) ++ rest) = some (.block ss sp, rest) := by
    intro ss sp ihs fuel rest h
    rw [sdepth] at h
    cases fuel with
    | zero => omega
    | succ g =>
      simp [encStatement, parseStatement, List.append_assoc, parseNat_enc,
        ihs g _ (by omega), parseSpan_enc]
  have hnil : ∀ fuel rest, sdepthList ([] : List Statement) ≤ fuel →
      parseStatementList fuel ([] : List Statement).length
          (encStatementList [] ++ rest) =
        some (([] : List Statement), rest) := by
    intro fuel rest _
    simp [encStatementList, parseStatementList]
  have hcons : ∀ s ss,
      (∀ fuel rest, sdepth s ≤ fuel →
        parseStatement fuel (encStatement s ++ rest) = some (s, rest)) →
      (∀ fuel rest, sdepthList ss ≤ fuel →
        parseStatementList fuel ss.length (encStatementList ss ++ rest) = some (ss, rest)) →
      ∀ fuel rest, sdepthList (s :: ss) ≤ fuel →
      parseStatementList fuel (s :: ss).length (encStatementList (s :: ss) ++ rest) =
        some (s :: ss, rest) := by
    intro s ss ihs ihss fuel rest h
    rw [sdepthList] at h
    cases fuel with
    | zero => omega
    | succ g =>
      simp [encStatementList, parseStatementList, List.append_assoc,
        ihs g _ (by omega), ihss g _ (by omega)]
  exact ⟨Statement.inductionOn _ _ hret hdef hassign hcond hiter hblock hnil hcons,
         Statement.inductionOnList _ _ hret hdef hassign hcond hiter hblock hnil hcons⟩

/-- Statement-list form of `parseStatement_enc_all`. -/
theorem parseStatementList_enc (ss : List Statement) (fuel : Nat) (rest : List Char)
    (h : sdepthList ss ≤ fuel) :
    parseStatementList fuel ss.length (encStatementList ss ++ rest) = some (ss, rest) :=
  parseStatement_enc_all.2 ss fuel rest h

/-- The function codec round-trips at any fuel covering the body. -/
theorem parseFunction_enc (f : Function) (fuel : Nat) (rest : List Char)
    (h : sdepthList f.block ≤ fuel) :
    parseFunction fuel (encFunction f ++ rest) = some (f, rest) := by
  obtain ⟨idn, inp, body, sp⟩ := f
  simp only [encFunction] at *
  simp [parseFunction, List.append_assoc, parseString_enc, parseNat_enc, parseStrings_enc,
    parseStatementList_enc body fuel _ h, parseSpan_enc]

/-- The name-to-function mapping codec round-trips at any fuel covering every
body. -/
theorem parseNamedFunctions_enc (fns : List (String × Function)) (fuel : Nat) (rest : List Char)
    (h : ∀ nf ∈ fns, sdepthList nf.2.block ≤ fuel) :
    parseNamedFunctions fuel fns.length (encNamedFunctions fns ++ rest) = some (fns, rest) := by
  induction fns with
  | nil => simp [encNamedFunctions, parseNamedFunctions]
  | cons nf fns ih =>
    obtain ⟨nm, f⟩ := nf
    simp [encNamedFunctions, parseNamedFunctions, List.append_assoc, parseString_enc,
      parseFunction_enc f fuel _ (h (nm, f) (by simp)),
      ih fun x hx => h x (by simp [hx])]

/-- The program codec round-trips at any fuel covering every function body. -/
theorem parseProgram_enc (p : Program) (fuel : Nat) (rest : List Char)
    (h : ∀ nf ∈ p.functions, sdepthList nf.2.block ≤ fuel) :
    parseProgram fuel (encProgram p ++ rest) = some (p, rest) := by
  obtain ⟨imps, fns⟩ := p
  simp only [encProgram] at *
  simp [parseProgram, List.append_assoc, parseNat_enc, parseStrings_enc,
    parseNamedFunctions_enc fns fuel _ h]

/-- Length of a unary number encoding. -/
theorem encNat_length (n : Nat) : (encNat n).length = n + 1 := by
  simp [encNat]

/-- Length of a length-prefixed string encoding. -/
theorem encString_length (s : String) : (encString s).length = 2 * s.length + 1 := by
  rw [encString, List.length_append, encNat_length]
  rw [show s.data.length = s.length from rfl]
  omega

/-- Length of a span encoding. -/
theorem encSpan_length (sp : Span) : (encSpan sp).length = sp.start + sp.stop + 2 := by
  simp [encSpan, encNat]
  omega

/-- An optional-number encoding is nonempty. -/
theorem encOptionNat_length_pos (w : Option Nat) : 0 < (encOptionNat w).length := by
  cases w <;> simp [encOptionNat]

/-- An optional-operator encoding is nonempty. -/
theorem encOptionOp_length_pos (op : Option BinaryOp) : 0 < (encOptionOp op).length := by
  cases op <;> simp [encOptionOp]

/-- The fuel requirement of an expression is below its encoding's length (and
at most the encoding's length for lists), so the input itself always provides
enough fuel. -/
theorem edepth_lt_enc_all :
    (∀ e : Expression, edepth e < (encExpression e).length) ∧
    (∀ es : List Expression, edepthList es ≤ (encExpressionList es).length) := by
  have h1 : ∀ (n : String) (sp : Span),
      edepth (.identifier n sp) < (encExpression (.identifier n sp)).length := by
    intro n sp
    simp [edepth, encExpression, encString_length, encSpan_length]
  have h2 : ∀ (v : String) (sp : Span),
      edepth (.lit v sp) < (encExpression (.lit v sp)).length := by
    intro v sp
    simp [edepth, encExpression, encString_length, encSpan_length]
  have h3 : ∀ op l rhs sp, edepth l < (encExpression l).length →
      edepth rhs < (encExpression rhs).length →
      edepth (.binary op l rhs sp) < (encExpression (.binary op l rhs sp)).length := by
    intro op l rhs sp hl hr
    simp [edepth, encExpression, encSpan_length]
    omega
  have h4 : ∀ f args w sp, edepthList args ≤ (encExpressionList args).length →
      edepth (.call f args w sp) < (encExpression (.call f args w sp)).length := by
    intro f args w sp ha
    have hw := encOptionNat_length_pos w
    simp [edepth, encExpression, encString_length, encNat_length, encSpan_length]
    omega
  have h5 : ∀ es sp, edepthList es ≤ (encExpressionList es).length →
      edepth (.tupleInit es sp) < (encExpression (.tupleInit es sp)).length := by
    intro es sp he
    simp [edepth, encExpression, encNat_length, encSpan_length]
    omega
  have h6 : ∀ t i sp, edepth t < (encExpression t).length →
      edepth (.tupleAccess t i sp) < (encExpression (.tupleAccess t i sp)).length := by
    intro t i sp ht
    simp [edepth, encExpression, encNat_length, encSpan_length]
    omega
  have h7 : edepthList ([] : List Expression) ≤ (encExpressionList []).length := by
    simp [edepthList, encExpressionList]
  have h8 : ∀ e es, edepth e < (encExpression e).length →
      edepthList es ≤ (encExpressionList es).length →
      edepthList (e :: es) ≤ (encExpressionList (e :: es)).length := by
    intro e es he hes
    simp [edepthList, encExpressionList]
    omega
  exact ⟨Expression.inductionOn _ _ h1 h2 h3 h4 h5 h6 h7 h8,
         Expression.inductionOnList _ _ h1 h2 h3 h4 h5 h6 h7 h8⟩

/-- The fuel requirement of a statement is below its encoding's length (and at
most the encoding's length for statement sequences). -/
theorem sdepth_lt_enc_all :
    (∀ s : Statement, sdepth s < (encStatement s).length) ∧
    (∀ ss : List Statement, sdepthList ss ≤ (encStatementList ss).length) := by
  have hret : ∀ (v : Expression) (sp : Span),
      sdepth (.ret v sp) < (encStatement (.ret v sp)).length := by
    intro v sp
    have hv := edepth_lt_enc_all.1 v
    simp [sdepth, encStatement, encSpan_length]
    omega
  have hdef : ∀ (ns : List String) (v : Expression) (sp : Span),
      sdepth (.definition ns v sp) < (encStatement (.definition ns v sp)).length := by
    intro ns v sp
    have hv := edepth_lt_enc_all.1 v
    simp [sdepth, encStatement, encNat_length, encSpan_length]
    omega
  have hassign : ∀ (op : Option BinaryOp) (t v : Expression) (sp : Span),
      sdepth (.assign op t v sp) < (encStatement (.assign op t v sp)).length := by
    intro op t v sp
    have ht := edepth_lt_enc_all.1 t
    have hv := edepth_lt_enc_all.1 v
    have hop := encOptionOp_length_pos op
    simp [sdepth, encStatement, encSpan_length]
    omega
  have hcond : ∀ (c : Expression) (tb eb : List Statement) (sp : Span),
      sdepthList tb ≤ (encStatementList tb).length →
      sdepthList eb ≤ (encStatementList eb).length →
      sdepth (.conditional c tb eb sp) < (encStatement (.conditional c tb eb sp)).length := by
    intro c tb eb sp htb heb
    have hc := edepth_lt_enc_all.1 c
    simp [sdepth, encStatement, encNat_length, encSpan_length]
    omega
  have hiter : ∀ (x : String) (lo hi : Expression) (body : List Statement) (sp : Span),
      sdepthList body ≤ (encStatementList body).length →
      sdepth (.iteration x lo hi body sp) <
        (encStatement (.iteration x lo hi body sp)).length := by
    intro x lo hi body sp hb
    have hlo := edepth_lt_enc_all.1 lo
    have hhi := edepth_lt_enc_all.1 hi
    simp [sdepth, encStatement, encString_length, encNat_length, encSpan_length]
    omega
  have hblock : ∀ (ss : List Statement) (sp : Span),
      sdepthList ss ≤ (encStatementList ss).length →
      sdepth (.block ss sp) < (encStatement (.block ss sp)).length := by
    intro ss sp hs
    simp [sdepth, encStatement, encNat_length, encSpan_length]
    omega
  have hnil : sdepthList ([] : List Statement) ≤ (encStatementList []).length := by
    simp [sdepthList, encStatementList]
  have hcons : ∀ s ss, sdepth s < (encStatement s).length →
      sdepthList ss ≤ (encStatementList ss).length →
      sdepthList (s :: ss) ≤ (encStatementList (s :: ss)).length := by
    intro s ss hs hss
    simp [sdepthList, encStatementList]
    omega
  exact ⟨Statement.inductionOn _ _ hret hdef hassign hcond hiter hblock hnil hcons,
         Statement.inductionOnList _ _ hret hdef hassign hcond hiter hblock hnil hcons⟩

/-- Every function body's fuel requirement is bounded by the length of the
whole program document. -/
theorem sdepthList_le_encProgram (p : Program) :
    ∀ nf ∈ p.functions, sdepthList nf.2.block ≤ (encProgram p).length := by
  have hfns : ∀ fns : List (String × Function), ∀ nf ∈ fns,
      sdepthList nf.2.block ≤ (encNamedFunctions fns).length := by
    intro fns
    induction fns with
    | nil => simp
    | cons nf0 fns ih =>
      intro nf hnf
      rcases List.mem_cons.mp hnf with h | h
      · subst h
        have hb := sdepth_lt_enc_all.2 nf.2.block
        have : (encStatementList nf.2.block).length ≤ (encFunction nf.2).length := by
          simp [encFunction]
          omega
        simp only [encNamedFunctions, List.length_append]
        omega
      · have := ih nf h
        simp only [encNamedFunctions, List.length_append]
        omega
  intro nf hnf
  have := hfns p.functions nf hnf
  simp only [encProgram, List.length_append]
  omega

/-- Serialization followed by deserialization reconstructs the same program:
the core round-trip of the persisted representation. -/
theorem from_json_string_enc (p : Program) :
    Ast.from_json_string (String.mk (encProgram p)) = .ok (Ast.new p) := by
  have hfuel : ∀ nf ∈ p.functions, sdepthList nf.2.block ≤ (encProgram p).length + 1 := by
    intro nf hnf
    have := sdepthList_le_encProgram p nf hnf
    omega
  have hp := parseProgram_enc p ((encProgram p).length + 1) [] hfuel
  rw [List.append_nil] at hp
  simp only [Ast.from_json_string]
  rw [hp]

/-- Unfolding of function reduction under the canonicalizer. -/
theorem reduceFunction_canon (f : Function) :
    ReconstructingDirector.reduceFunction Canonicalizer f =
      Except.bind (ReconstructingDirector.reduceStatements Canonicalizer f.block)
        (fun body => .ok { f with block := body }) := by
  simp [ReconstructingDirector.reduceFunction, Canonicalizer_reduceFunction_eq, bind, Except.bind]

/-- A second canonicalization of an already-canonicalized function succeeds
and changes nothing. -/
theorem reduceFunction_canon_idem (f f' : Function)
    (h : ReconstructingDirector.reduceFunction Canonicalizer f = .ok f') :
    ReconstructingDirector.reduceFunction Canonicalizer f' = .ok f' := by
  rw [reduceFunction_canon] at h ⊢
  cases hb : ReconstructingDirector.reduceStatements Canonicalizer f.block with
  | error e => rw [hb] at h; cases h
  | ok body =>
    rw [hb] at h
    cases h
    have hidem := canon_statement_idempotent.2 f.block body hb
    simp only [hidem, Except.bind]

/-- Unfolding of the name-to-function reduction at a cons cell. -/
theorem reduceFunctions_cons (r : Reducer) (n : String) (f : Function)
    (fs : List (String × Function)) :
    ReconstructingDirector.reduceFunctions r ((n, f) :: fs) =
      Except.bind (ReconstructingDirector.reduceFunction r f) (fun f' =>
        Except.bind (ReconstructingDirector.reduceFunctions r fs) (fun fs' =>
          .ok ((n, f') :: fs'))) := by
  simp [ReconstructingDirector.reduceFunctions, bind, Except.bind]

/-- A second canonicalization of an already-canonicalized function mapping
succeeds and changes nothing. -/
theorem reduceFunctions_canon_idem :
    ∀ (fs fs' : List (String × Function)),
      ReconstructingDirector.reduceFunctions Canonicalizer fs = .ok fs' →
      ReconstructingDirector.reduceFunctions Canonicalizer fs' = .ok fs' := by
  intro fs
  induction fs with
  | nil =>
    intro fs' h
    simp [ReconstructingDirector.reduceFunctions] at h
    subst h
    simp [ReconstructingDirector.reduceFunctions]
  | cons nf fs ih =>
    obtain ⟨n, f⟩ := nf
    intro fs' h
    rw [reduceFunctions_cons] at h
    cases hf : ReconstructingDirector.reduceFunction Canonicalizer f with
    | error e => rw [hf] at h; cases h
    | ok f1 =>
      cases hfs : ReconstructingDirector.reduceFunctions Canonicalizer fs with
      | error e => rw [hf, hfs] at h; cases h
      | ok fs1 =>
        rw [hf, hfs] at h
        cases h
        rw [reduceFunctions_cons, reduceFunction_canon_idem f f1 hf, ih fs1 hfs]
        simp [Except.bind]

/-- Unfolding of whole-program reduction under the canonicalizer. -/
theorem reduce_program_canon (p : Program) :
    ReconstructingDirector.reduce_program Canonicalizer p =
      Except.bind (ReconstructingDirector.reduceFunctions Canonicalizer p.functions)
        (fun fns => .ok ⟨p.imports, fns⟩) := by
  simp [ReconstructingDirector.reduce_program, Canonicalizer_reduceProgram_eq, bind, Except.bind]

/-- A second canonicalization of an already-canonicalized program succeeds
and changes nothing. -/
theorem reduce_program_canon_idem (p q : Program)
    (h : ReconstructingDirector.reduce_program Canonicalizer p = .ok q) :
    ReconstructingDirector.reduce_program Canonicalizer q = .ok q := by
  rw [reduce_program_canon] at h ⊢
  cases hf : ReconstructingDirector.reduceFunctions Canonicalizer p.functions with
  | error e => rw [hf] at h; cases h
  | ok fns =>
    rw [hf] at h
    cases h
    rw [show (Program.mk p.imports fns).functions = fns from rfl,
      reduceFunctions_canon_idem p.functions fns hf]
    simp [Except.bind]

/-- The canonicalizer's rules leave every sugar-free statement (and statement
sequence) exactly as it is. -/
theorem canon_sugarFree_id :
    (∀ s : Statement, s.sugarFree = true →
      ReconstructingDirector.reduceStatement Canonicalizer s = .ok [s]) ∧
    (∀ ss : List Statement, Statement.sugarFreeList ss = true →
      ReconstructingDirector.reduceStatements Canonicalizer ss = .ok ss) := by
  have hret : ∀ (v : Expression) (sp : Span), (Statement.ret v sp).sugarFree = true →
      ReconstructingDirector.reduceStatement Canonicalizer (.ret v sp) = .ok [.ret v sp] := by
    intro v sp _
    exact reduceStatement_canon_ret v sp
  have hdef : ∀ (ns : List String) (v : Expression) (sp : Span),
      (Statement.definition ns v sp).sugarFree = true →
      ReconstructingDirector.reduceStatement Canonicalizer (.definition ns v sp) =
        .ok [.definition ns v sp] := by
    intro ns v sp h
    rw [Statement.sugarFree] at h
    rw [reduceStatement_canon_definition]
    rcases Bool.or_eq_true_iff.mp h with h1 | h2
    · exact canonicalizeStatement_definition_single ns v sp (of_decide_eq_true h1)
    · by_cases hn : ns.length ≤ 1
      · exact canonicalizeStatement_definition_single ns v sp hn
      · exact canonicalizeStatement_definition_nowidth ns v sp (Nat.lt_of_not_le hn)
          (Option.isNone_iff_eq_none.mp h2)
  have hassign : ∀ (op : Option BinaryOp) (t v : Expression) (sp : Span),
      (Statement.assign op t v sp).sugarFree = true →
      ReconstructingDirector.reduceStatement Canonicalizer (.assign op t v sp) =
        .ok [.assign op t v sp] := by
    intro op t v sp h
    rw [Statement.sugarFree] at h
    have : op = none := Option.isNone_iff_eq_none.mp h
    subst this
    rw [reduceStatement_canon_assign]
    exact canonicalizeStatement_assign_none t v sp
  have hcond : ∀ (c : Expression) (tb eb : List Statement) (sp : Span),
      (Statement.sugarFreeList tb = true →
        ReconstructingDirector.reduceStatements Canonicalizer tb = .ok tb) →
      (Statement.sugarFreeList eb = true →
        ReconstructingDirector.reduceStatements Canonicalizer eb = .ok eb) →
      (Statement.conditional c tb eb sp).sugarFree = true →
      ReconstructingDirector.reduceStatement Canonicalizer (.conditional c tb eb sp) =
        .ok [.conditional c tb eb sp] := by
    intro c tb eb sp ihtb iheb h
    rw [Statement.sugarFree] at h
    obtain ⟨htb, heb⟩ := Bool.and_eq_true_iff.mp h
    rw [reduceStatement_canon_conditional, ihtb htb, iheb heb]
    simp [Except.bind]
  have hiter : ∀ (x : String) (lo hi : Expression) (body : List Statement) (sp : Span),
      (Statement.sugarFreeList body = true →
        ReconstructingDirector.reduceStatements Canonicalizer body = .ok body) →
      (Statement.iteration x lo hi body sp).sugarFree = true →
      ReconstructingDirector.reduceStatement Canonicalizer (.iteration x lo hi body sp) =
        .ok [.iteration x lo hi body sp] := by
    intro x lo hi body sp ihb h
    rw [Statement.sugarFree] at h
    rw [reduceStatement_canon_iteration, ihb h]
    simp [Except.bind]
  have hblock : ∀ (ss : List Statement) (sp : Span),
      (Statement.sugarFreeList ss = true →
        ReconstructingDirector.reduceStatements Canonicalizer ss = .ok ss) →
      (Statement.block ss sp).sugarFree = true →
      ReconstructingDirector.reduceStatement Canonicalizer (.block ss sp) =
        .ok [.block ss sp] := by
    intro ss sp ihs h
    rw [Statement.sugarFree] at h
    rw [reduceStatement_canon_block, ihs h]
    simp [Except.bind]
  have hnil : Statement.sugarFreeList ([] : List Statement) = true →
      ReconstructingDirector.reduceStatements Canonicalizer [] = .ok [] := by
    intro _
    simp [ReconstructingDirector.reduceStatements]
  have hcons : ∀ (s : Statement) (ss : List Statement),
      (s.sugarFree = true →
        ReconstructingDirector.reduceStatement Canonicalizer s = .ok [s]) →
      (Statement.sugarFreeList ss = true →
        ReconstructingDirector.reduceStatements Canonicalizer ss = .ok ss) →
      Statement.sugarFreeList (s :: ss) = true →
      ReconstructingDirector.reduceStatements Canonicalizer (s :: ss) = .ok (s :: ss) := by
    intro s ss ihs ihss h
    rw [Statement.sugarFreeList] at h
    obtain ⟨hs, hss⟩ := Bool.and_eq_true_iff.mp h
    rw [reduceStatements_cons, ihs hs, ihss hss]
    simp [Except.bind]
  exact ⟨Statement.inductionOn _ _ hret hdef hassign hcond hiter hblock hnil hcons,
         Statement.inductionOnList _ _ hret hdef hassign hcond hiter hblock hnil hcons⟩

/-- A whole program free of canonicalization sugar passes canonicalization
completely unchanged. -/
theorem reduce_program_canon_sugarFree (p : Program) (h : p.sugarFree = true) :
    ReconstructingDirector.reduce_program Canonicalizer p = .ok p := by
  rw [reduce_program_canon]
  have hfns : ∀ fs : List (String × Function),
      (∀ nf ∈ fs, Statement.sugarFreeList nf.2.block = true) →
      ReconstructingDirector.reduceFunctions Canonicalizer fs = .ok fs := by
    intro fs
    induction fs with
    | nil =>
      intro _
      simp [ReconstructingDirector.reduceFunctions]
    | cons nf fs ih =>
      obtain ⟨n, f⟩ := nf
      intro hall
      have hf : ReconstructingDirector.reduceFunction Canonicalizer f = .ok f := by
        rw [reduceFunction_canon, canon_sugarFree_id.2 f.block (hall (n, f) (by simp))]
        simp [Except.bind]
      rw [reduceFunctions_cons, hf, ih fun x hx => hall x (by simp [hx])]
      simp [Except.bind]
  rw [hfns p.functions fun nf hnf => List.all_eq_true.mp h nf hnf]
  simp [Except.bind]

/-- The canonicalizer rule set preserves the span of every statement it
emits: each replacement carries the span of the statement it replaces. -/
theorem canonicalizeStatement_span (s : Statement) (out : List Statement)
    (h : canonicalizeStatement s = .ok out) : ∀ t ∈ out, t.span = s.span := by
  cases s with
  | ret v sp =>
    cases h
    simp [Statement.span]
  | definition ns v sp =>
    by_cases hn : ns.length ≤ 1
    · rw [canonicalizeStatement_definition_single ns v sp hn] at h
      cases h
      simp [Statement.span]
    · have hn' : 1 < ns.length := Nat.lt_of_not_le hn
      cases hw : v.tupleWidth with
      | none =>
        rw [canonicalizeStatement_definition_nowidth ns v sp hn' hw] at h
        cases h
        simp [Statement.span]
      | some w =>
        by_cases hwe : w = ns.length
        · subst hwe
          rw [canonicalizeStatement_definition_split ns v sp hn' hw] at h
          cases h
          intro t ht
          obtain ⟨q, _, rfl⟩ := List.mem_map.mp ht
          simp [Statement.span]
        · rw [canonicalizeStatement_definition_mismatch ns v sp w hn' hw hwe] at h
          cases h
  | assign op t v sp =>
    cases op with
    | none =>
      cases h
      simp [Statement.span]
    | some o =>
      cases hv : t.isValidTarget with
      | true =>
        rw [canonicalizeStatement_assign_some o t v sp hv] at h
        cases h
        simp [Statement.span]
      | false =>
        rw [canonicalizeStatement_assign_invalid o t v sp hv] at h
        cases h
  | conditional c tb eb sp =>
    cases h
    simp [Statement.span]
  | iteration x lo hi body sp =>
    cases h
    simp [Statement.span]
  | block ss sp =>
    cases h
    simp [Statement.span]

/-- The whole canonicalization traversal preserves statement spans: every
statement emitted for an input statement carries that statement's span. -/
theorem reduceStatement_canon_span (s : Statement) (out : List Statement)
    (h : ReconstructingDirector.reduceStatement Canonicalizer s = .ok out) :
    ∀ t ∈ out, t.span = s.span := by
  cases s with
  | ret v sp =>
    rw [reduceStatement_canon_ret] at h
    cases h
    simp [Statement.span]
  | definition ns v sp =>
    rw [reduceStatement_canon_definition] at h
    exact canonicalizeStatement_span _ out h
  | assign op t v sp =>
    rw [reduceStatement_canon_assign] at h
    exact canonicalizeStatement_span _ out h
  | conditional c tb eb sp =>
    rw [reduceStatement_canon_conditional] at h
    cases htb : ReconstructingDirector.reduceStatements Canonicalizer tb with
    | error e => rw [htb] at h; cases h
    | ok tb' =>
      cases heb : ReconstructingDirector.reduceStatements Canonicalizer eb with
      | error e => rw [htb, heb] at h; cases h
      | ok eb' =>
        rw [htb, heb] at h
        cases h
        simp [Statement.span]
  | iteration x lo hi body sp =>
    rw [reduceStatement_canon_iteration] at h
    cases hb : ReconstructingDirector.reduceStatements Canonicalizer body with
    | error e => rw [hb] at h; cases h
    | ok body' =>
      rw [hb] at h
      cases h
      simp [Statement.span]
  | block ss sp =>
    rw [reduceStatement_canon_block] at h
    cases hb : ReconstructingDirector.reduceStatements Canonicalizer ss with
    | error e => rw [hb] at h; cases h
    | ok ss' =>
      rw [hb] at h
      cases h
      simp [Statement.span]

/-- C1: if `Ast::canonicalize` returns an error, the `Program` tree held by
the `Ast` after the call is the tree held before the call — canonicalization
either fully succeeds and replaces the tree or fails leaving it untouched. -/
theorem c1_canonicalize_error_leaves_tree (a : Ast) (e : AstError)
    (h : (Ast.canonicalize a).1 = .error e) : (Ast.canonicalize a).2 = a := by
  unfold Ast.canonicalize at h ⊢
  cases hr : ReconstructingDirector.reduce_program Canonicalizer a.as_repr with
  | ok p => rw [hr] at h; simp at h
  | error e' => rfl

/-- Witness for C1 at the arity-mismatch example program. -/
theorem c1_witness :
    ((Ast.new exArityProgram).canonicalize.1 = .error (.tupleArityMismatch 3 2 spEx)) ∧
    (Ast.new exArityProgram).canonicalize.2 = Ast.new exArityProgram :=
  ⟨by rfl,
   c1_canonicalize_error_leaves_tree (Ast.new exArityProgram)
     (.tupleArityMismatch 3 2 spEx) (by rfl)⟩

/-- C2: serializing any `Ast::new(P)` with `to_json_string` succeeds, and
deserializing the resulting string with `from_json_string` yields an `Ast`
holding a `Program` structurally equal to `P`. -/
theorem c2_serialize_roundtrip (p : Program) (s : String)
    (h : (Ast.new p).to_json_string = .ok s) :
    Ast.from_json_string s = .ok (Ast.new p) := by
  rw [Ast.to_json_string] at h
  cases h
  exact from_json_string_enc p

/-- Witness for C2 at the `x += 1;` example program. -/
theorem c2_witness :
    ((Ast.new exPlusProgram).to_json_string = .ok exPlusJson) ∧
    Ast.from_json_string exPlusJson = .ok (Ast.new exPlusProgram) :=
  ⟨by rfl, c2_serialize_roundtrip exPlusProgram exPlusJson (by rfl)⟩

/-- C3: canonicalization is idempotent — when `canonicalize` succeeds, a
second `canonicalize` on the resulting `Ast` succeeds and leaves its tree
structurally equal to the first run's result. -/
theorem c3_canonicalize_idempotent (a r : Ast)
    (h : Ast.canonicalize a = (.ok (), r)) : Ast.canonicalize r = (.ok (), r) := by
  unfold Ast.canonicalize at h
  cases hr : ReconstructingDirector.reduce_program Canonicalizer a.as_repr with
  | error e =>
    rw [hr] at h
    injection h with h1 h2
    cases h1
  | ok p =>
    rw [hr] at h
    injection h with h1 h2
    subst h2
    unfold Ast.canonicalize
    rw [show (Ast.mk p).as_repr = p from rfl, reduce_program_canon_idem a.as_repr p hr]

/-- Witness for C3 at the `x += 1;` example program. -/
theorem c3_witness :
    ((Ast.new exPlusProgram).canonicalize = (.ok (), Ast.new exPlusCanonProgram)) ∧
    (Ast.new exPlusCanonProgram).canonicalize = (.ok (), Ast.new exPlusCanonProgram) :=
  ⟨by rfl,
   c3_canonicalize_idempotent (Ast.new exPlusProgram) (Ast.new exPlusCanonProgram) (by rfl)⟩

/-- C4: when `canonicalize` returns `Ok`, the held tree afterwards is exactly
the program produced by the Director with the Canonicalizer reducer on the
previously held program (the embedding is functional, so the input tree value
itself is never mutated). -/
theorem c4_canonicalize_replaces_tree (a : Ast) (q : Program)
    (h : ReconstructingDirector.reduce_program Canonicalizer a.as_repr = .ok q) :
    Ast.canonicalize a = (.ok (), Ast.new q) ∧ (Ast.canonicalize a).2.as_repr = q := by
  have h1 : Ast.canonicalize a = (.ok (), Ast.new q) := by
    unfold Ast.canonicalize
    rw [h]
    rfl
  refine ⟨h1, ?_⟩
  rw [h1]
  rfl

/-- Witness for C4 at the `x += 1;` example program. -/
theorem c4_witness :
    (ReconstructingDirector.reduce_program Canonicalizer
        (Ast.new exPlusProgram).as_repr = .ok exPlusCanonProgram) ∧
    ((Ast.new exPlusProgram).canonicalize = (.ok (), Ast.new exPlusCanonProgram) ∧
      ((Ast.new exPlusProgram).canonicalize).2.as_repr = exPlusCanonProgram) :=
  ⟨by rfl, c4_canonicalize_replaces_tree (Ast.new exPlusProgram) exPlusCanonProgram (by rfl)⟩

/-- C5: a compound-assignment statement with a valid assignment target is
canonicalized to a plain assignment whose value is the corresponding binary
operation applied to the target and the value. -/
theorem c5_compound_assignment_rewrite (op : BinaryOp) (t v : Expression) (sp : Span)
    (h : t.isValidTarget = true) :
    ReconstructingDirector.reduceStatement Canonicalizer (.assign (some op) t v sp) =
      .ok [.assign none t (.binary op t v sp) sp] :=
  (reduceStatement_canon_assign (some op) t v sp).trans
    (canonicalizeStatement_assign_some op t v sp h)

/-- Witness for C5: `x += 1;` canonicalizes to `x = x + 1;`. -/
theorem c5_witness :
    ((Expression.identifier "x" spEx).isValidTarget = true) ∧
    ReconstructingDirector.reduceStatement Canonicalizer
        (.assign (some .add) (.identifier "x" spEx) (.lit "1" spEx) spEx) =
      .ok [.assign none (.identifier "x" spEx)
        (.binary .add (.identifier "x" spEx) (.lit "1" spEx) spEx) spEx] :=
  ⟨by rfl,
   c5_compound_assignment_rewrite .add (.identifier "x" spEx) (.lit "1" spEx) spEx (by rfl)⟩

/-- C6: a multi-binding definition with a tuple-producing initializer of
mismatched width fails canonicalization with an arity-mismatch error carrying
the definition's span; with matching width it is split into one binding per
declared name, each bound to the tuple component of its position, in
declaration order. -/
theorem c6_multi_binding_rule :
    (∀ (ns : List String) (v : Expression) (sp : Span) (w : Nat),
      1 < ns.length → v.tupleWidth = some w → w ≠ ns.length →
      ReconstructingDirector.reduceStatement Canonicalizer (.definition ns v sp) =
        .error (.tupleArityMismatch ns.length w sp)) ∧
    (∀ (ns : List String) (v : Expression) (sp : Span),
      1 < ns.length → v.tupleWidth = some ns.length →
      ReconstructingDirector.reduceStatement Canonicalizer (.definition ns v sp) =
        .ok (ns.enum.map fun q => .definition [q.2] (.tupleAccess v q.1 sp) sp)) := by
  constructor
  · intro ns v sp w hn hw hne
    exact (reduceStatement_canon_definition ns v sp).trans
      (canonicalizeStatement_definition_mismatch ns v sp w hn hw hne)
  · intro ns v sp hn hw
    exact (reduceStatement_canon_definition ns v sp).trans
      (canonicalizeStatement_definition_split ns v sp hn hw)

/-- Witness for C6: `let (a, b, c) = pair();` with a width-2 producer fails
with the arity mismatch at the definition's span; `let (a, b) = pair();`
splits into two bindings. -/
theorem c6_witness :
    (ReconstructingDirector.reduceStatement Canonicalizer
        (.definition ["a", "b", "c"] (.call "pair" [] (some 2) spEx) spEx) =
      .error (.tupleArityMismatch 3 2 spEx)) ∧
    ReconstructingDirector.reduceStatement Canonicalizer
        (.definition ["a", "b"] (.call "pair" [] (some 2) spEx) spEx) =
      .ok [.definition ["a"] (.tupleAccess (.call "pair" [] (some 2) spEx) 0 spEx) spEx,
           .definition ["b"] (.tupleAccess (.call "pair" [] (some 2) spEx) 1 spEx) spEx] := by
  constructor
  · exact c6_multi_binding_rule.1 ["a", "b", "c"] (.call "pair" [] (some 2) spEx) spEx 2
      (by decide) (by rfl) (by decide)
  · have h := c6_multi_binding_rule.2 ["a", "b"] (.call "pair" [] (some 2) spEx) spEx
      (by decide) (by rfl)
    simpa [List.enum] using h

/-- C7: canonicalization preserves the spans of unaffected nodes — expression
nodes are reproduced identically, every statement emitted for an input
statement carries that statement's span, a sugar-free statement is reproduced
identically, and a sugar-free program passes through unchanged. -/
theorem c7_span_preservation :
    (∀ e : Expression, ReconstructingDirector.reduceExpression Canonicalizer e = .ok e) ∧
    (∀ (s : Statement) (out : List Statement),
      ReconstructingDirector.reduceStatement Canonicalizer s = .ok out →
      ∀ t ∈ out, t.span = s.span) ∧
    (∀ s : Statement, s.sugarFree = true →
      ReconstructingDirector.reduceStatement Canonicalizer s = .ok [s]) ∧
    (∀ p : Program, p.sugarFree = true →
      ReconstructingDirector.reduce_program Canonicalizer p = .ok p) :=
  ⟨reduceExpression_canon_id, reduceStatement_canon_span, canon_sugarFree_id.1,
    reduce_program_canon_sugarFree⟩

/-- Witness for C7 at a sugar-free statement and the sugar-free canonical
example program. -/
theorem c7_witness :
    (∀ t ∈ [Statement.ret (.identifier "x" spEx) spEx],
      t.span = (Statement.ret (.identifier "x" spEx) spEx).span) ∧
    ((Statement.ret (.identifier "x" spEx) spEx).sugarFree = true) ∧
    ReconstructingDirector.reduceStatement Canonicalizer
        (.ret (.identifier "x" spEx) spEx) = .ok [.ret (.identifier "x" spEx) spEx] ∧
    (exPlusCanonProgram.sugarFree = true) ∧
    ReconstructingDirector.reduce_program Canonicalizer exPlusCanonProgram =
      .ok exPlusCanonProgram :=
  ⟨c7_span_preservation.2.1 (Statement.ret (.identifier "x" spEx) spEx)
      [Statement.ret (.identifier "x" spEx) spEx] (by rfl), by rfl,
   c7_span_preservation.2.2.1 _ (by rfl), by rfl,
   c7_span_preservation.2.2.2 exPlusCanonProgram (by rfl)⟩

/-- C8: an input string that is not a well-formed serialized program document
makes `Ast::from_json_string` return the typed deserialization error (it is a
total function returning a `Result`; no `Ast` is produced). -/
theorem c8_malformed_document_error (s : String) (h : wellFormedDocument s = false) :
    Ast.from_json_string s = .error .failedToReadJsonStringToAst := by
  unfold wellFormedDocument at h
  unfold Ast.from_json_string
  cases hp : parseProgram (s.data.length + 1) s.data with
  | none => rfl
  | some pr =>
    obtain ⟨p, rest⟩ := pr
    cases rest with
    | nil => rw [hp] at h; cases h
    | cons c cs => rfl

/-- Witness for C8 at the empty document. -/
theorem c8_witness :
    (wellFormedDocument "" = false) ∧
    Ast.from_json_string "" = .error .failedToReadJsonStringToAst :=
  ⟨by rfl, c8_malformed_document_error "" (by rfl)⟩

/-- C9: `to_json_file` writes the serialized tree to the file at
`path/file_name`, creating or overwriting it; a failing create returns the
typed error carrying that path, a write that fails after a successful create
returns the typed write error carrying that path, and a failing read in
`from_json_file` returns the typed error carrying the path read. -/
theorem c9_file_api :
    (∀ (a : Ast) (fs : FileSystem) (path fileName : String),
      fs.createOk (pathJoin path fileName) = true →
      fs.writeOk (pathJoin path fileName) = true →
      ∃ fs' : FileSystem, Ast.to_json_file a fs path fileName = .ok fs' ∧
        fs'.files (pathJoin path fileName) = some (String.mk (encProgram a.ast))) ∧
    (∀ (a : Ast) (fs : FileSystem) (path fileName : String),
      fs.createOk (pathJoin path fileName) = false →
      Ast.to_json_file a fs path fileName =
        .error (.failedToCreateAstJsonFile (pathJoin path fileName))) ∧
    (∀ (a : Ast) (fs : FileSystem) (path fileName : String),
      fs.createOk (pathJoin path fileName) = true →
      fs.writeOk (pathJoin path fileName) = false →
      Ast.to_json_file a fs path fileName =
        .error (.failedToWriteAstToJsonFile (pathJoin path fileName))) ∧
    (∀ (fs : FileSystem) (path : String), fs.files path = none →
      Ast.from_json_file fs path = .error (.failedToReadJsonFile path)) := by
  refine ⟨?_, ?_, ?_, ?_⟩
  · intro a fs path fileName hc hw
    refine ⟨fs.write (pathJoin path fileName) (String.mk (encProgram a.ast)), ?_, ?_⟩
    · simp [Ast.to_json_file, hc, hw]
    · simp [FileSystem.write]
  · intro a fs path fileName hc
    simp [Ast.to_json_file, hc]
  · intro a fs path fileName hc hw
    simp [Ast.to_json_file, hc, hw]
  · intro fs path h
    simp [Ast.from_json_file, h]

/-- Witness for C9 at concrete file-system states, covering the successful
write, the failing create, the write that fails after a successful create,
and the failing read. -/
theorem c9_witness :
    ((fsEmpty.createOk (pathJoin "out" "ast.json") = true) ∧
      (fsEmpty.writeOk (pathJoin "out" "ast.json") = true) ∧
      ∃ fs' : FileSystem,
        Ast.to_json_file (Ast.new exPlusProgram) fsEmpty "out" "ast.json" = .ok fs' ∧
        fs'.files (pathJoin "out" "ast.json") =
          some (String.mk (encProgram (Ast.new exPlusProgram).ast))) ∧
    ((fsReadOnly.createOk (pathJoin "out" "ast.json") = false) ∧
      Ast.to_json_file (Ast.new exPlusProgram) fsReadOnly "out" "ast.json" =
        .error (.failedToCreateAstJsonFile (pathJoin "out" "ast.json"))) ∧
    ((fsWriteFail.createOk (pathJoin "out" "ast.json") = true) ∧
      (fsWriteFail.writeOk (pathJoin "out" "ast.json") = false) ∧
      Ast.to_json_file (Ast.new exPlusProgram) fsWriteFail "out" "ast.json" =
        .error (.failedToWriteAstToJsonFile (pathJoin "out" "ast.json"))) ∧
    (fsEmpty.files "missing" = none) ∧
    Ast.from_json_file fsEmpty "missing" = .error (.failedToReadJsonFile "missing") :=
  ⟨⟨by rfl, by rfl,
    c9_file_api.1 (Ast.new exPlusProgram) fsEmpty "out" "ast.json" (by rfl) (by rfl)⟩,
   ⟨by rfl, c9_file_api.2.1 (Ast.new exPlusProgram) fsReadOnly "out" "ast.json" (by rfl)⟩,
   ⟨by rfl, by rfl,
    c9_file_api.2.2.1 (Ast.new exPlusProgram) fsWriteFail "out" "ast.json" (by rfl) (by rfl)⟩,
   by rfl, c9_file_api.2.2.2 fsEmpty "missing" (by rfl)⟩

/-- C10: `Ast::new` and `into_repr` are mutually inverse, and the read
accessors `as_repr` and `as_ref` agree, both returning the wrapped program. -/
theorem c10_accessors_agree :
    (∀ p : Program, (Ast.new p).into_repr = p ∧ (Ast.new p).as_repr = p ∧
      (Ast.new p).as_ref = p) ∧
    (∀ a : Ast, a.as_repr = a.as_ref ∧ Ast.new a.into_repr = a) :=
  ⟨fun _ => ⟨rfl, rfl, rfl⟩, fun _ => ⟨rfl, rfl⟩⟩

end Leo
